import Mathlib

/-!
Verification of the xHCI transfer/event-ring engine of
`src/kernel/linux-3.18/drivers/usb/mu3h/mu3h_test_drv/xhci.c`.

The definitions below are a shallow embedding of the ring/cursor
primitives (`inc_deq`, `inc_enq`, `room_on_ring`, `prepare_ring`),
the TD builders (`xhci_queue_bulk_tx`, `xhci_queue_ctrl_tx`,
`xhci_td_remainder`), the event dispatch slices
(`handle_cmd_completion`, `handle_tx_event`, `trb_in_td`) and the
completion-length clamp of `finish_td`.  Machine integers are
modelled as `Nat` with explicit masks where overflow matters; the
unbounded `while` loops of the C source are modelled with an explicit
fuel argument (the source comments themselves note the loops only
terminate on rings that are not made entirely of Link TRBs).

Numeric constants (TRB field layout, endpoint states, flag bits) come
from the driver's `xhci.h` header, which is not among the sampled
sources; the values used here are the standard xHCI definitions the
spec describes (4-word TRBs, 64 KB TRB buffer cap, 5-bit remainder,
cycle/toggle/chain bits).
-/

/-- TRBS_PER_SEGMENT: number of TRB slots per ring segment.
Modelled from the spec: "a fixed-capacity array of TRB slots"; the
header value (standard xHCI driver constant) is 64.  No claim below
depends on the numeric value, only on it being at least 2. -/
def TRBS_PER_SEGMENT : Nat := 64

def TRB_CYCLE : Nat := 1
def LINK_TOGGLE : Nat := 2
def TRB_CHAIN : Nat := 16
def TRB_IOC : Nat := 32
def TRB_ISP : Nat := 4
def TRB_IDT : Nat := 64
def TRB_TYPE_BITMASK : Nat := 0xfc00

/-- TRB_TYPE(p) = p << 10 -/
def TRB_TYPE (p : Nat) : Nat := p <<< 10

def TRB_NORMAL : Nat := 1
def TRB_SETUP : Nat := 2
def TRB_DATA : Nat := 3
def TRB_STATUS : Nat := 4
def TRB_LINK : Nat := 6
def TRB_ENABLE_SLOT : Nat := 9
def TRB_DISABLE_SLOT : Nat := 10
def TRB_ADDR_DEV : Nat := 11
def TRB_CONFIG_EP : Nat := 12
def TRB_EVAL_CONTEXT : Nat := 13
def TRB_RESET_EP : Nat := 14
def TRB_STOP_RING : Nat := 15
def TRB_SET_DEQ : Nat := 16
def TRB_RESET_DEV : Nat := 17
def TRB_CMD_NOOP : Nat := 23

def COMP_SUCCESS : Nat := 1
def COMP_CMD_STOP : Nat := 24
def COMP_CMD_ABORT : Nat := 25

def EP_STATE_DISABLED : Nat := 0
def EP_STATE_RUNNING : Nat := 1
def EP_STATE_HALTED : Nat := 2
def EP_STATE_STOPPED : Nat := 3
def EP_STATE_ERROR : Nat := 4

def SET_DEQ_PENDING : Nat := 1
def EP_HALTED : Nat := 2
def EP_HALT_PENDING : Nat := 4

def TRB_DIR_IN : Nat := 1 <<< 16
def TRT_NO_DATA : Nat := 0
def TRT_OUT_DATA : Nat := 2
def TRT_IN_DATA : Nat := 3

/-- TRB_TRT(p) = (p & 3) << 16 -/
def TRB_TRT (p : Nat) : Nat := (p &&& 3) <<< 16

/-- TRB_LEN(p) = p & 0x1ffff -/
def TRB_LEN (p : Nat) : Nat := p &&& 0x1ffff

/-- TRB_INTR_TARGET(p) = (p & 0x3ff) << 22 -/
def TRB_INTR_TARGET (p : Nat) : Nat := (p &&& 0x3ff) <<< 22

/-- GET_COMP_CODE(p) = (p & (0xff << 24)) >> 24 -/
def GET_COMP_CODE (p : Nat) : Nat := (p &&& (0xff <<< 24)) >>> 24

/-- TRB_TO_SLOT_ID(p) = (p & (0xff << 24)) >> 24 -/
def TRB_TO_SLOT_ID (p : Nat) : Nat := (p &&& (0xff <<< 24)) >>> 24

/-- TRB_TO_EP_INDEX(p): endpoint context field, 1-based, minus one. -/
def TRB_TO_EP_INDEX (p : Nat) : Nat := ((p &&& (0x1f <<< 16)) >>> 16) - 1

/-- GET_TRANSFER_LENGTH: low 24 bits of the transfer-event length word. -/
def GET_TRANSFER_LENGTH (p : Nat) : Nat := p &&& 0xffffff

/-- TRB_MAX_BUFF_SHIFT = 16, TRB_MAX_BUFF_SIZE = 1 << 16 (64 KB). -/
def TRB_MAX_BUFF_SIZE : Nat := 1 <<< 16

def ENOENT : Int := 2
def ENODEV : Int := 19
def EINVAL : Int := 22
def ENOMEM : Int := 12
def ESHUTDOWN : Int := 108
def EREMOTEIO : Int := 121

/-- One 4-word TRB slot (`union xhci_trb`): three data words plus the
control word `field[3]` (a.k.a. `link.control` / `generic.field[3]`). -/
structure Trb where
  f0 : Nat
  f1 : Nat
  f2 : Nat
  control : Nat
deriving Repr, DecidableEq

/-- A ring position: (segment index, slot index within the segment).
Slot index `TRBS_PER_SEGMENT` denotes the one-past-the-end pointer the
event-ring code transiently uses. -/
abbrev XRingPos := Nat × Nat

/-- `struct xhci_ring` together with its cycle of segments.  Segments
are indexed 0..numSegs-1; `seg->next` is index + 1 modulo `numSegs`,
and segment 0 is `first_seg`.  `segDma g` is the DMA base address of
segment `g`; `trbs g s` is the TRB in slot `s` of segment `g`. -/
structure XhciRing where
  numSegs : Nat
  isEvent : Bool
  segDma : Nat → Nat
  trbs : Nat → Nat → Trb
  enq : XRingPos
  deq : XRingPos
  cycle_state : Nat
  enq_updates : Nat
  deq_updates : Nat

def XhciRing.trbAt (r : XhciRing) (g s : Nat) : Trb := r.trbs g s

/-- Overwrite the control word of the TRB in slot (g, s). -/
def XhciRing.setControl (r : XhciRing) (g s c : Nat) : XhciRing :=
  { r with trbs := fun g2 s2 =>
      if g2 = g ∧ s2 = s then
        let t := r.trbs g s
        { t with control := c }
      else r.trbs g2 s2 }

/-- `ring->cycle_state = (ring->cycle_state ? 0 : 1)` -/
def XhciRing.flipCycle (r : XhciRing) : XhciRing :=
  { r with cycle_state := if r.cycle_state ≠ 0 then 0 else 1 }

/-- `xhci_trb_virt_to_dma(seg, trb)`: 0 when the TRB is not within the
segment, else the segment's DMA base plus the slot offset (TRBs are
16 bytes). -/
def trb_virt_to_dma (r : XhciRing) (g s : Nat) : Nat :=
  if s > TRBS_PER_SEGMENT then 0 else r.segDma g + s * 16

/-- `last_trb(xhci, ring, seg, trb)`: for the event ring, true iff the
pointer is one past the end of the segment; otherwise true iff the TRB
is a Link TRB. -/
def last_trb (r : XhciRing) (g s : Nat) : Bool :=
  if r.isEvent then s == TRBS_PER_SEGMENT
  else (r.trbAt g s).control &&& TRB_TYPE_BITMASK == TRB_TYPE TRB_LINK

/-- `last_trb_on_last_seg`: event ring — one past the end of the
segment whose successor is the first segment; other rings — the Link
TRB carries LINK_TOGGLE. -/
def last_trb_on_last_seg (r : XhciRing) (g s : Nat) : Bool :=
  if r.isEvent then s == TRBS_PER_SEGMENT && (g + 1) % r.numSegs == 0
  else (r.trbAt g s).control &&& LINK_TOGGLE != 0

/-- `enqueue_is_link_trb(ring)` -/
def enqueue_is_link_trb (r : XhciRing) : Bool :=
  (r.trbAt r.enq.1 r.enq.2).control &&& TRB_TYPE_BITMASK == TRB_TYPE TRB_LINK

/-- The while-loop body of `inc_deq`: as long as the dequeue position
satisfies `last_trb`, optionally toggle the cycle state (consumer on
the last segment) and move to the next segment's first slot. -/
def incDeqLoop (consumer : Bool) : Nat → XhciRing → XhciRing
  | 0, r => r
  | fuel + 1, r =>
    if last_trb r r.deq.1 r.deq.2 then
      let r1 := if consumer && last_trb_on_last_seg r r.deq.1 r.deq.2
                then r.flipCycle else r
      incDeqLoop consumer fuel { r1 with deq := ((r1.deq.1 + 1) % r1.numSegs, 0) }
    else r

/-- `inc_deq(xhci, ring, consumer)` -/
def inc_deq (r : XhciRing) (consumer : Bool) : XhciRing :=
  incDeqLoop consumer (r.numSegs + 1)
    { r with deq := (r.deq.1, r.deq.2 + 1), deq_updates := r.deq_updates + 1 }

/-- `0xFFFFFFFF & ~TRB_CHAIN` : the 32-bit complement used by
`next->link.control &= ~TRB_CHAIN`. -/
def NOT_TRB_CHAIN : Nat := 0xFFFFFFFF ^^^ TRB_CHAIN

/-- The while-loop body of `inc_enq`.  `chain` is the TRB_CHAIN bit of
the TRB that was just enqueued (read before the pointer increment);
`quirk` models `xhci_link_trb_quirk(xhci)`. -/
def incEnqLoop (consumer more quirk : Bool) (chain : Nat) : Nat → XhciRing → XhciRing
  | 0, r => r
  | fuel + 1, r =>
    let g := r.enq.1
    let s := r.enq.2
    if last_trb r g s then
      if !consumer && !r.isEvent && chain == 0 && !more then r
      else
        let r1 :=
          if !consumer && !r.isEvent then
            let c0 := (r.trbAt g s).control
            let c1 := if !quirk then (c0 &&& NOT_TRB_CHAIN) ||| chain else c0
            r.setControl g s (c1 ^^^ TRB_CYCLE)
          else r
        let r2 := if !consumer && last_trb_on_last_seg r1 g s
                  then r1.flipCycle else r1
        incEnqLoop consumer more quirk chain fuel
          { r2 with enq := ((g + 1) % r2.numSegs, 0) }
    else r

/-- `inc_enq(xhci, ring, consumer, more_trbs_coming)` -/
def inc_enq (r : XhciRing) (consumer more quirk : Bool) : XhciRing :=
  let chain := (r.trbAt r.enq.1 r.enq.2).control &&& TRB_CHAIN
  incEnqLoop consumer more quirk chain (r.numSegs + 1)
    { r with enq := (r.enq.1, r.enq.2 + 1), enq_updates := r.enq_updates + 1 }

/-- A well-formed transfer/command ring: not the event ring, at least
one segment, every segment's last slot holds a Link TRB and no other
slot does. -/
def WfRing (r : XhciRing) : Prop :=
  r.isEvent = false ∧ 1 ≤ r.numSegs ∧
  (∀ g s, s < TRBS_PER_SEGMENT - 1 →
    ((r.trbAt g s).control &&& TRB_TYPE_BITMASK == TRB_TYPE TRB_LINK) = false) ∧
  (∀ g, ((r.trbAt g (TRBS_PER_SEGMENT - 1)).control &&& TRB_TYPE_BITMASK
          == TRB_TYPE TRB_LINK) = true)

/-- A well-formed event ring: flagged as the event ring, at least one
segment. -/
def WfEventRing (r : XhciRing) : Prop :=
  r.isEvent = true ∧ 1 ≤ r.numSegs

/-- The link-skipping `while (last_trb …) { seg = seg->next; trb = seg->trbs; }`
used (on local copies of the cursor) by `room_on_ring`. -/
def skipLinks (r : XhciRing) : Nat → XRingPos → XRingPos
  | 0, p => p
  | fuel + 1, p =>
    if last_trb r p.1 p.2 then skipLinks r fuel ((p.1 + 1) % r.numSegs, 0)
    else p

/-- The `for (i = 0; i <= num_trbs; ++i)` loop of `room_on_ring`:
`k` is the number of iterations still to run (`num_trbs + 1` at entry). -/
def roomLoop (r : XhciRing) (fuel : Nat) : Nat → XRingPos → Bool
  | 0, _ => true
  | k + 1, p =>
    if p = r.deq then false
    else roomLoop r fuel k (skipLinks r fuel (p.1, p.2 + 1))

/-- `room_on_ring(xhci, ring, num_trbs)` -/
def room_on_ring (r : XhciRing) (numTrbs : Nat) : Bool :=
  let fuel := r.numSegs + 1
  let enq0 := skipLinks r fuel r.enq
  if enq0 = r.deq then
    -- empty ring: TRBS_PER_SEGMENT-1 usable slots per segment, minus the
    -- always-free spare slot
    decide (numTrbs ≤ (TRBS_PER_SEGMENT - 1) * r.numSegs - 1)
  else
    roomLoop r fuel (numTrbs + 1) enq0

/-- One simulated producer advance used to STATE the free-space property
the spec describes: move one slot, then skip Link TRBs (no mutation of
the ring). -/
def advancePos (r : XhciRing) (p : XRingPos) : XRingPos :=
  skipLinks r (r.numSegs + 1) (p.1, p.2 + 1)

/-- `advancePos` iterated `i` times. -/
def walkPos (r : XhciRing) (p : XRingPos) : Nat → XRingPos
  | 0 => p
  | i + 1 => walkPos r (advancePos r p) i

/-- Modelled from the spec: "a room check (`has_room(ring, n)`) …
simulates cursor advancement (including link-skip) to count free slots
without mutating state, and fails with `InsufficientRingSpace` if `n+1`
slots (the mandatory spare) are unavailable."  On a non-empty ring the
`n+1` slots at the (link-skipped) enqueue cursor and the `n` simulated
advances after it must all avoid the dequeue cursor; on an empty ring
all `numSegs * (TRBS_PER_SEGMENT - 1)` usable slots are free and `n+1`
of them must exist. -/
def has_room_spec (r : XhciRing) (n : Nat) : Prop :=
  let enq0 := skipLinks r (r.numSegs + 1) r.enq
  if enq0 = r.deq then
    n + 1 ≤ r.numSegs * (TRBS_PER_SEGMENT - 1)
  else
    ∀ i, 1 ≤ i → i ≤ n → walkPos r enq0 i ≠ r.deq

instance (r : XhciRing) (n : Nat) : Decidable (has_room_spec r n) := by
  unfold has_room_spec
  exact instDecidableDite

/-- The `while (last_trb …)` loop of `prepare_ring` that hands a
deferred Link TRB to the hardware and moves the enqueue cursor past
it. -/
def prepRingLoop (quirk : Bool) : Nat → XhciRing → XhciRing
  | 0, r => r
  | fuel + 1, r =>
    let g := r.enq.1
    let s := r.enq.2
    if last_trb r g s then
      let c0 := (r.trbAt g s).control
      let c1 := if !quirk then c0 &&& NOT_TRB_CHAIN else c0 ||| TRB_CHAIN
      let r1 := r.setControl g s (c1 ^^^ TRB_CYCLE)
      let r2 := if last_trb_on_last_seg r1 g s then r1.flipCycle else r1
      prepRingLoop quirk fuel { r2 with enq := ((g + 1) % r2.numSegs, 0) }
    else r

/-- `prepare_ring(xhci, ep_ring, ep_state, num_trbs, mem_flags)`.
Returns the C result code together with the (possibly updated) ring;
an error return leaves the ring exactly as it was. -/
def prepare_ring (r : XhciRing) (ep_state : Nat) (numTrbs : Nat)
    (quirk : Bool) : Int × XhciRing :=
  if ep_state = EP_STATE_DISABLED then (-ENOENT, r)
  else if ep_state = EP_STATE_ERROR then (-EINVAL, r)
  else if ep_state = EP_STATE_HALTED ∨ ep_state = EP_STATE_STOPPED ∨
          ep_state = EP_STATE_RUNNING then
    if !room_on_ring r numTrbs then (-ENOMEM, r)
    else if enqueue_is_link_trb r then (0, prepRingLoop quirk (r.numSegs + 1) r)
    else (0, r)
  else (-EINVAL, r)

/-- `ring_ep_doorbell(xhci, slot_id, ep_index, stream_id)`: returns
whether the doorbell register is actually written, i.e. whether none of
EP_HALT_PENDING, SET_DEQ_PENDING and EP_HALTED is set in the endpoint
state. -/
def ring_ep_doorbell (ep_state : Nat) : Bool :=
  !(ep_state &&& EP_HALT_PENDING != 0) && !(ep_state &&& SET_DEQ_PENDING != 0)
    && !(ep_state &&& EP_HALTED != 0)

/-- DIV_ROUND_UP(n, d) -/
def DIV_ROUND_UP (n d : Nat) : Nat := (n + d - 1) / d

/-- `xhci_td_remainder(td_transfer_size, td_running_total, maxp,
trb_buffer_length)`: the TD-size field value (already shifted into
bits 21:17). -/
def xhci_td_remainder (td_transfer_size td_running_total maxp
    trb_buffer_length : Nat) : Nat :=
  let max := 31
  if td_running_total + trb_buffer_length = td_transfer_size then 0
  else
    let packet_transferred := td_running_total / maxp
    let td_packet_count := DIV_ROUND_UP td_transfer_size maxp
    let remainder := td_packet_count - packet_transferred
    if remainder > max then max <<< 17 else remainder <<< 17

/-- `while (running_total < urb->transfer_buffer_length)
       { num_trbs++; running_total += TRB_MAX_BUFF_SIZE; }`
The loop runs at most `len` times (each pass adds 64 KB), so fuel
`len` makes the recursion structural without changing the result. -/
def bulkCountWhileF : Nat → Nat → Nat → Nat
  | 0, _, _ => 0
  | fuel + 1, running_total, len =>
    if running_total < len then
      1 + bulkCountWhileF fuel (running_total + TRB_MAX_BUFF_SIZE) len
    else 0

def bulkCountWhile (running_total len : Nat) : Nat :=
  bulkCountWhileF len running_total len

/-- TRB count computed by `xhci_queue_bulk_tx` before queueing: one TRB
for the first (boundary-limited or zero-length) chunk, one per further
64 KB chunk, plus one extra zero-length TRB when URB_ZERO_PACKET is set
and the length is a multiple of the max packet size. -/
def bulk_num_trbs (dma len maxp : Nat) (zero_packet : Bool) : Nat :=
  let running_total := TRB_MAX_BUFF_SIZE - dma % TRB_MAX_BUFF_SIZE
  let base := if running_total ≠ 0 ∨ len = 0 then 1 else 0
  base + bulkCountWhile running_total len
    + (if zero_packet && len % maxp == 0 then 1 else 0)

/-- One TRB emitted by the bulk TD builder: buffer pointer, buffer
length, and the TD-remainder bits placed in the length field. -/
structure BulkTrb where
  addr : Nat
  len : Nat
  rem : Nat
deriving Repr, DecidableEq

/-- The `do { … } while (num_trbs > 0)` emission loop of
`xhci_queue_bulk_tx` (contiguous, non-scatter-gather path): emits
one TRB per iteration, then advances `addr`/`running_total` and caps
the next length at the 64 KB TRB maximum. -/
def bulkLoop (maxp urb_len : Nat) : Nat → Nat → Nat → Nat → List BulkTrb
  | 0, _, _, _ => []
  | num_trbs + 1, addr, trb_buff_len, running_total =>
    let rem := xhci_td_remainder urb_len running_total maxp trb_buff_len
    let rt2 := running_total + trb_buff_len
    let addr2 := addr + trb_buff_len
    let next_len := min (urb_len - rt2) TRB_MAX_BUFF_SIZE
    ⟨addr, trb_buff_len, rem⟩ :: bulkLoop maxp urb_len num_trbs addr2 next_len rt2

/-- The TRB sequence emitted by `xhci_queue_bulk_tx` (contiguous
buffer path) for a transfer of `len` bytes at DMA address `dma`. -/
def xhci_queue_bulk_tx_trbs (dma len maxp : Nat) (zero_packet : Bool) :
    List BulkTrb :=
  let num := bulk_num_trbs dma len maxp zero_packet
  let first_len := min (TRB_MAX_BUFF_SIZE - dma % TRB_MAX_BUFF_SIZE) len
  bulkLoop maxp len num dma first_len 0

/-- `[a, a + l)` stays inside one 64 KB-aligned region. -/
def inOne64K (a l : Nat) : Prop := a % TRB_MAX_BUFF_SIZE + l ≤ TRB_MAX_BUFF_SIZE

/-- `struct usb_ctrlrequest` (the setup packet). -/
structure CtrlRequest where
  bRequestType : Nat
  bRequest : Nat
  wValue : Nat
  wIndex : Nat
  wLength : Nat
deriving Repr, DecidableEq

/-- USB_DIR_IN bit of bRequestType. -/
def USB_DIR_IN : Nat := 0x80

/-- The TRB sequence emitted by `xhci_queue_ctrl_tx`: a Setup TRB with
the request packed as immediate data, an optional Data TRB when the
transfer length is positive, an optional extra zero-length Data TRB
when URB_ZERO_PACKET is set and the length is a multiple of the
(unmasked) wMaxPacketSize, and a Status TRB.  `cycle` is the ring's
cycle state and `start_cycle` its value at the first TRB (the cycle
bit of the first TRB is patched later by `giveback_first_trb`); the
control endpoint never crosses a link inside this short TD in the
modelled configuration, so the cycle state is constant across the
emission. -/
def xhci_queue_ctrl_tx_trbs (setup : CtrlRequest) (len maxp dma : Nat)
    (zero_packet : Bool) (cycle : Nat) : List Trb :=
  let num_trbs := 2 + (if len > 0 then 1 else 0)
  let trt := if num_trbs = 2 then TRB_TRT TRT_NO_DATA
             else if setup.bRequestType &&& USB_DIR_IN ≠ 0 then TRB_TRT TRT_IN_DATA
             else TRB_TRT TRT_OUT_DATA
  let setup_field :=
    (TRB_IDT ||| TRB_TYPE TRB_SETUP ||| trt) ||| (if cycle = 0 then 1 else 0)
  let setupTrb : Trb :=
    ⟨setup.bRequestType ||| setup.bRequest <<< 8 ||| setup.wValue <<< 16,
     setup.wIndex ||| setup.wLength <<< 16,
     TRB_LEN 8 ||| TRB_INTR_TARGET 0,
     setup_field⟩
  let dataDir := if setup.bRequestType &&& USB_DIR_IN ≠ 0 then TRB_DIR_IN else 0
  let dataTrbs : List Trb :=
    if len > 0 then
      [⟨dma &&& 0xFFFFFFFF, dma >>> 32,
        TRB_LEN len ||| TRB_INTR_TARGET 0,
        dataDir ||| TRB_ISP ||| TRB_TYPE TRB_DATA ||| cycle⟩]
    else []
  let zlpTrbs : List Trb :=
    if zero_packet && len % maxp == 0 then
      [⟨dma &&& 0xFFFFFFFF, dma >>> 32, 0,
        dataDir ||| TRB_ISP ||| TRB_TYPE TRB_DATA ||| cycle⟩]
    else []
  let statusDir := if len > 0 ∧ setup.bRequestType &&& USB_DIR_IN ≠ 0 then 0
                   else TRB_DIR_IN
  let statusTrb : Trb :=
    ⟨0, 0, TRB_INTR_TARGET 0,
     statusDir ||| TRB_IOC ||| TRB_TYPE TRB_STATUS ||| cycle⟩
  setupTrb :: (dataTrbs ++ zlpTrbs ++ [statusTrb])

/-- TRB type of a control word: bits 15:10. -/
def trbTypeOf (c : Nat) : Nat := (c &&& TRB_TYPE_BITMASK) >>> 10

/-- The do-while segment walk of `trb_in_td(start_seg, start_trb,
end_trb, suspect_dma)`.  Returns the segment (index) containing the
suspect DMA address, or `none`. -/
def trbInTdLoop (r : XhciRing) (startSeg : Nat) (endPos : XRingPos)
    (suspect : Nat) : Nat → Nat → Nat → Option Nat
  | 0, _, _ => none
  | fuel + 1, curSeg, startDma =>
    if startDma = 0 then none
    else
      let endSegDma := trb_virt_to_dma r curSeg (TRBS_PER_SEGMENT - 1)
      let endTrbDma := if endPos.1 = curSeg then trb_virt_to_dma r curSeg endPos.2
                       else 0
      if endTrbDma > 0 then
        if startDma ≤ endTrbDma then
          if startDma ≤ suspect ∧ suspect ≤ endTrbDma then some curSeg else none
        else
          if (startDma ≤ suspect ∧ suspect ≤ endSegDma) ∨
             (r.segDma curSeg ≤ suspect ∧ suspect ≤ endTrbDma) then some curSeg
          else none
      else
        if startDma ≤ suspect ∧ suspect ≤ endSegDma then some curSeg
        else
          let nextSeg := (curSeg + 1) % r.numSegs
          if nextSeg = startSeg then none
          else trbInTdLoop r startSeg endPos suspect fuel nextSeg
                 (trb_virt_to_dma r nextSeg 0)

/-- `trb_in_td(start_seg, start_trb, end_trb, suspect_dma)` -/
def trb_in_td (r : XhciRing) (startPos endPos : XRingPos) (suspect : Nat) :
    Option Nat :=
  trbInTdLoop r startPos.1 endPos suspect r.numSegs startPos.1
    (trb_virt_to_dma r startPos.1 startPos.2)

/-- A pending TD as far as event matching is concerned: the position of
its last TRB on the endpoint ring. -/
structure TdRec where
  lastTrb : XRingPos
deriving Repr, DecidableEq

/-- The state touched by the `handle_tx_event` slice below: the
endpoint ring (whose `td_list` head is searched), its pending-TD list,
and the event ring. -/
structure TxState where
  epRing : XhciRing
  tdList : List TdRec
  eventRing : XhciRing

/-- The TD-matching slice of `handle_tx_event` (from the `td_list`
empty check to the `trb_in_td` decision, plus the `cleanup:` label):
 - empty pending list: the event is discarded (`urb = NULL; goto
   cleanup`), return 0, and `cleanup:` advances the event ring's own
   dequeue cursor (`inc_deq(xhci, xhci->event_ring, true)`);
 - head TD searched by `trb_in_td(ep_ring->deq_seg, ep_ring->dequeue,
   td->last_trb, event_dma)`; no match: return -ESHUTDOWN immediately
   (no ring is touched, the `cleanup:` label is not reached);
 - match: processing continues (modelled by the continuation
   `processTd`), then `cleanup:` advances the event ring. -/
def handle_tx_event_slice (processTd : TxState → Int × TxState)
    (st : TxState) (event_dma : Nat) : Int × TxState :=
  match st.tdList with
  | [] => (0, { st with eventRing := inc_deq st.eventRing true })
  | td :: _ =>
    match trb_in_td st.epRing st.epRing.deq td.lastTrb event_dma with
    | none => (-ESHUTDOWN, st)
    | some _ =>
      let res := processTd st
      (res.1, { res.2 with eventRing := inc_deq res.2.eventRing true })

/-- `CMD_DONE` / `CMD_FAIL` of the test harness (`g_cmd_status`).
Modelled from the spec: "result status recorded per-command-type";
the numeric values live in the `mtk-test-lib.h` header, which is not
among the sampled sources, so an enumeration is used. -/
inductive CmdStatus where
  | pending
  | done
  | fail
deriving Repr, DecidableEq

/-- The controller state touched by `handle_cmd_completion`: the
command ring, the global error bitmask, the recorded command result,
the recorded slot id, and the per-slot/per-endpoint `ep_state` flag
words (`xhci->devs[slot]->eps[ep].ep_state`). -/
structure HcdState where
  cmdRing : XhciRing
  error_bitmask : Nat
  g_cmd_status : CmdStatus
  g_slot_id : Nat
  epState : Nat → Nat → Nat

/-- `struct xhci_event_cmd`: the command-completion event TRB. -/
structure EventCmd where
  cmd_trb : Nat
  status : Nat
  flags : Nat
deriving Repr, DecidableEq

def NOT_SET_DEQ_PENDING : Nat := 0xFFFFFFFF ^^^ SET_DEQ_PENDING
def NOT_EP_HALTED : Nat := 0xFFFFFFFF ^^^ EP_HALTED

/-- Clear mask bits in one endpoint's `ep_state`. -/
def HcdState.clearEpBits (st : HcdState) (slot ep mask : Nat) : HcdState :=
  { st with epState := fun s2 e2 =>
      if s2 = slot ∧ e2 = ep then st.epState slot ep &&& mask
      else st.epState s2 e2 }

/-- `handle_cmd_completion(xhci, event)`. -/
def handle_cmd_completion (st : HcdState) (ev : EventCmd) : HcdState :=
  let slot_id := TRB_TO_SLOT_ID ev.flags
  let cmd_dequeue_dma :=
    trb_virt_to_dma st.cmdRing st.cmdRing.deq.1 st.cmdRing.deq.2
  if cmd_dequeue_dma = 0 then
    { st with error_bitmask := st.error_bitmask ||| (1 <<< 4) }
  else if ev.cmd_trb ≠ cmd_dequeue_dma then
    { st with error_bitmask := st.error_bitmask ||| (1 <<< 5) }
  else
    let trbCtl := (st.cmdRing.trbAt st.cmdRing.deq.1 st.cmdRing.deq.2).control
    let ty := trbCtl &&& TRB_TYPE_BITMASK
    let comp := GET_COMP_CODE ev.status
    if ty = TRB_TYPE TRB_CMD_NOOP then
      { st with cmdRing := inc_deq st.cmdRing false }
    else if ty = TRB_TYPE TRB_ENABLE_SLOT then
      let st1 := if comp = COMP_SUCCESS then
                   { st with g_slot_id := slot_id, g_cmd_status := .done }
                 else { st with g_slot_id := 0, g_cmd_status := .fail }
      { st1 with cmdRing := inc_deq st1.cmdRing false }
    else if ty = TRB_TYPE TRB_DISABLE_SLOT then
      let st1 := if comp = COMP_SUCCESS then
                   { st with g_slot_id := slot_id, g_cmd_status := .done }
                 else st
      { st1 with cmdRing := inc_deq st1.cmdRing false }
    else if ty = TRB_TYPE TRB_ADDR_DEV then
      let st1 := if comp = COMP_SUCCESS ∨ comp = COMP_CMD_ABORT then
                   { st with g_cmd_status := .done }
                 else { st with g_cmd_status := .fail }
      { st1 with cmdRing := inc_deq st1.cmdRing false }
    else if ty = TRB_TYPE TRB_CONFIG_EP ∨ ty = TRB_TYPE TRB_RESET_DEV ∨
            ty = TRB_TYPE TRB_STOP_RING ∨ ty = TRB_TYPE TRB_EVAL_CONTEXT then
      let st1 := if comp = COMP_SUCCESS then { st with g_cmd_status := .done }
                 else { st with g_cmd_status := .fail }
      { st1 with cmdRing := inc_deq st1.cmdRing false }
    else if ty = TRB_TYPE TRB_SET_DEQ then
      let st1 := if comp = COMP_SUCCESS then
                   { (st.clearEpBits slot_id (TRB_TO_EP_INDEX trbCtl)
                        NOT_SET_DEQ_PENDING) with g_cmd_status := .done }
                 else { st with g_cmd_status := .fail }
      { st1 with cmdRing := inc_deq st1.cmdRing false }
    else if ty = TRB_TYPE TRB_RESET_EP then
      let st1 := { (st.clearEpBits slot_id (TRB_TO_EP_INDEX trbCtl)
                      NOT_EP_HALTED) with g_cmd_status := .done }
      { st1 with cmdRing := inc_deq st1.cmdRing false }
    else
      -- default: command-ring-stopped completions return without
      -- advancing the dequeue cursor
      if comp = COMP_CMD_STOP then { st with g_cmd_status := .done }
      else
        let st1 := { st with error_bitmask := st.error_bitmask ||| (1 <<< 6),
                             g_cmd_status := .fail }
        { st1 with cmdRing := inc_deq st1.cmdRing false }

/-- 32-bit unsigned subtraction `a - b` as used for
`urb->actual_length = urb->transfer_buffer_length -
GET_TRANSFER_LENGTH(event->transfer_len)`. -/
def u32_sub (a b : Nat) : Nat := (a + (2 ^ 32 - b % 2 ^ 32)) % 2 ^ 32

/-- The final actual-length check of `finish_td` (`td_cleanup:`): if the
computed `actual_length` exceeds `transfer_buffer_length` (an unsigned
underflow made it huge), report 0 bytes and status 0, or - EREMOTEIO
when URB_SHORT_NOT_OK was requested.  Returns the
(actual_length, status) pair given back to the client. -/
def finish_td_length_check (actual_length transfer_buffer_length : Nat)
    (short_not_ok : Bool) (status : Int) : Nat × Int :=
  if actual_length > transfer_buffer_length then
    (0, if short_not_ok then - EREMOTEIO else 0)
  else (actual_length, status)

/-- The LINK_TOGGLE flag of the Link TRB ending segment `g`. -/
def linkToggleSet (r : XhciRing) (g : Nat) : Prop :=
  (r.trbAt g (TRBS_PER_SEGMENT - 1)).control &&& LINK_TOGGLE ≠ 0

instance (r : XhciRing) (g : Nat) : Decidable (linkToggleSet r g) := by
  unfold linkToggleSet
  infer_instance

lemma wfRing_not_link {r : XhciRing} (h : WfRing r) {s : Nat} (g : Nat)
    (hs : s < 63) : last_trb r g s = false := by
  rcases h with ⟨he, _, hnl, _⟩
  simp only [last_trb, he]
  simp only [Bool.false_eq_true, if_false]
  exact hnl g s hs

lemma wfRing_link {r : XhciRing} (h : WfRing r) (g : Nat) :
    last_trb r g 63 = true := by
  rcases h with ⟨he, _, _, hl⟩
  simp only [last_trb, he]
  simp only [Bool.false_eq_true, if_false]
  exact hl g

lemma inc_deq_wf_mid {r : XhciRing} (h : WfRing r) (c : Bool) {g s : Nat}
    (hd : r.deq = (g, s)) (hs : s + 1 < 63) :
    (inc_deq r c).deq = (g, s + 1) ∧
    (inc_deq r c).cycle_state = r.cycle_state ∧
    (inc_deq r c).trbs = r.trbs ∧ (inc_deq r c).enq = r.enq := by
  have hnl : last_trb r g (s + 1) = false := wfRing_not_link h g hs
  unfold inc_deq
  simp only [incDeqLoop, hd]
  have hnl2 : last_trb { r with deq := (g, s + 1), deq_updates := r.deq_updates + 1 } g (s + 1) = false := hnl
  simp [hnl2]

lemma inc_deq_wf_cross {r : XhciRing} (h : WfRing r) (c : Bool) {g : Nat}
    (hd : r.deq = (g, 62)) :
    (inc_deq r c).deq = ((g + 1) % r.numSegs, 0) ∧
    (inc_deq r c).cycle_state =
      (if c ∧ linkToggleSet r g then (if r.cycle_state ≠ 0 then 0 else 1)
       else r.cycle_state) ∧
    (inc_deq r c).trbs = r.trbs ∧ (inc_deq r c).enq = r.enq := by
  rcases h with ⟨he, hn1, hnl, hl⟩
  obtain ⟨m, hm⟩ : ∃ m, r.numSegs = m + 1 := ⟨r.numSegs - 1, by omega⟩
  have hl63 : (r.trbs g 63).control &&& TRB_TYPE_BITMASK = TRB_TYPE TRB_LINK := by
    simpa using hl g
  have hnl0 : ∀ g2, ¬((r.trbs g2 0).control &&& TRB_TYPE_BITMASK = TRB_TYPE TRB_LINK) :=
    fun g2 => by simpa using hnl g2 0 (by decide)
  unfold inc_deq
  simp only [hd, incDeqLoop]
  rw [hm]
  simp only [incDeqLoop]
  simp only [last_trb, last_trb_on_last_seg, XhciRing.trbAt, XhciRing.flipCycle, he,
    Bool.false_eq_true, if_false, Nat.reduceAdd]
  simp only [hl63, hnl0, if_true, if_false]
  by_cases hc : c = true
  · by_cases ht : (r.trbs g 63).control &&& LINK_TOGGLE = 0
    · simp [hc, ht, linkToggleSet, XhciRing.trbAt, TRBS_PER_SEGMENT, hm, hnl0]
    · simp [hc, ht, linkToggleSet, XhciRing.trbAt, TRBS_PER_SEGMENT, hm, hnl0]
  · simp only [Bool.not_eq_true] at hc
    simp [hc, linkToggleSet, hm, hnl0]

lemma testBit_ffffffef_one : Nat.testBit 4294967279 1 = true := by decide

lemma testBit_sixteen_one : Nat.testBit 16 1 = false := by decide

lemma testBit_one_one : Nat.testBit 1 1 = false := by decide

lemma linkToggle_pres_noquirk (a x : Nat) :
    (((a &&& NOT_TRB_CHAIN) ||| (x &&& TRB_CHAIN)) ^^^ TRB_CYCLE) &&& LINK_TOGGLE
      = a &&& LINK_TOGGLE := by
  have h2 : LINK_TOGGLE = 2 ^ 1 := rfl
  rw [h2, Nat.and_two_pow, Nat.and_two_pow]
  congr 1
  simp [Nat.testBit_xor, Nat.testBit_or, Nat.testBit_and, NOT_TRB_CHAIN,
    TRB_CHAIN, TRB_CYCLE, testBit_ffffffef_one, testBit_sixteen_one, testBit_one_one]

lemma linkToggle_pres_quirk (a : Nat) :
    ((a ||| TRB_CHAIN) ^^^ TRB_CYCLE) &&& LINK_TOGGLE = a &&& LINK_TOGGLE := by
  have h2 : LINK_TOGGLE = 2 ^ 1 := rfl
  rw [h2, Nat.and_two_pow, Nat.and_two_pow]
  congr 1
  simp [Nat.testBit_xor, Nat.testBit_or, Nat.testBit_and, TRB_CHAIN, TRB_CYCLE,
    testBit_sixteen_one, testBit_one_one]

lemma linkToggle_pres_xor (a : Nat) :
    (a ^^^ TRB_CYCLE) &&& LINK_TOGGLE = a &&& LINK_TOGGLE := by
  have h2 : LINK_TOGGLE = 2 ^ 1 := rfl
  rw [h2, Nat.and_two_pow, Nat.and_two_pow]
  congr 1
  simp [Nat.testBit_xor, TRB_CYCLE, testBit_one_one]

lemma inc_enq_wf_mid {r : XhciRing} (h : WfRing r) (consumer more quirk : Bool)
    {g s : Nat} (hq : r.enq = (g, s)) (hs : s + 1 < 63) :
    (inc_enq r consumer more quirk).enq = (g, s + 1) ∧
    (inc_enq r consumer more quirk).cycle_state = r.cycle_state ∧
    (inc_enq r consumer more quirk).trbs = r.trbs ∧
    (inc_enq r consumer more quirk).deq = r.deq := by
  have hnl : last_trb r g (s + 1) = false := wfRing_not_link h g hs
  unfold inc_enq
  simp only [incEnqLoop, hq]
  have hnl2 : last_trb { r with enq := (g, s + 1), enq_updates := r.enq_updates + 1 } g (s + 1) = false := hnl
  simp [hnl2]

lemma inc_enq_wf_defer {r : XhciRing} (h : WfRing r) (quirk : Bool) {g : Nat}
    (hq : r.enq = (g, 62))
    (hch : (r.trbs g 62).control &&& TRB_CHAIN = 0) :
    (inc_enq r false false quirk).enq = (g, 63) ∧
    (inc_enq r false false quirk).cycle_state = r.cycle_state ∧
    (inc_enq r false false quirk).trbs = r.trbs ∧
    (inc_enq r false false quirk).deq = r.deq := by
  rcases h with ⟨he, hn1, hnl, hl⟩
  have hl63 : (r.trbs g 63).control &&& TRB_TYPE_BITMASK = TRB_TYPE TRB_LINK := by
    simpa using hl g
  unfold inc_enq
  simp only [incEnqLoop, hq, XhciRing.trbAt]
  simp only [last_trb, he, Bool.false_eq_true, if_false, Nat.reduceAdd, XhciRing.trbAt]
  simp [hl63, hch]

lemma inc_enq_wf_handoff {r : XhciRing} (h : WfRing r) (more quirk : Bool)
    {g : Nat} (hq : r.enq = (g, 62))
    (hnb : more = true ∨ (r.trbs g 62).control &&& TRB_CHAIN ≠ 0) :
    (inc_enq r false more quirk).enq = ((g + 1) % r.numSegs, 0) ∧
    ((inc_enq r false more quirk).trbs g 63).control =
      ((if quirk then (r.trbs g 63).control
        else ((r.trbs g 63).control &&& NOT_TRB_CHAIN) |||
          ((r.trbs g 62).control &&& TRB_CHAIN)) ^^^ TRB_CYCLE) ∧
    (∀ g2 s2, ¬(g2 = g ∧ s2 = 63) →
      (inc_enq r false more quirk).trbs g2 s2 = r.trbs g2 s2) ∧
    (inc_enq r false more quirk).cycle_state =
      (if linkToggleSet r g then (if r.cycle_state ≠ 0 then 0 else 1)
       else r.cycle_state) ∧
    (inc_enq r false more quirk).deq = r.deq := by
  rcases h with ⟨he, hn1, hnl, hl⟩
  obtain ⟨m, hm⟩ : ∃ m, r.numSegs = m + 1 := ⟨r.numSegs - 1, by omega⟩
  have hl63 : (r.trbs g 63).control &&& TRB_TYPE_BITMASK = TRB_TYPE TRB_LINK := by
    simpa using hl g
  have hnl0 : ∀ g2, ¬((r.trbs g2 0).control &&& TRB_TYPE_BITMASK = TRB_TYPE TRB_LINK) :=
    fun g2 => by simpa using hnl g2 0 (by decide)
  have hbreak : (!false && !r.isEvent && ((r.trbs g 62).control &&& TRB_CHAIN == 0) && !more) = false := by
    rcases hnb with hnb | hnb
    · simp [hnb]
    · simp [hnb, he]
  unfold inc_enq
  simp only [incEnqLoop, hq, XhciRing.trbAt]
  rw [hm]
  simp only [incEnqLoop]
  simp only [last_trb, last_trb_on_last_seg, XhciRing.trbAt, XhciRing.flipCycle,
    XhciRing.setControl, he, Bool.false_eq_true, if_false, Nat.reduceAdd]
  simp only [he, Bool.not_false, Bool.true_and, Bool.and_true] at hbreak
  simp only [hl63, beq_self_eq_true, if_true, Bool.not_false, Bool.true_and,
    Bool.and_true, hbreak, Bool.false_eq_true, if_false]
  cases quirk with
  | false =>
    by_cases ht : (r.trbs g 63).control &&& LINK_TOGGLE = 0
    · simp [linkToggle_pres_noquirk, ht, linkToggleSet, XhciRing.trbAt,
        TRBS_PER_SEGMENT, hnl0, hm]
      intro g2 s2 hne h1 h2
      exact absurd h2 (hne h1)
    · simp [linkToggle_pres_noquirk, ht, linkToggleSet, XhciRing.trbAt,
        TRBS_PER_SEGMENT, hnl0, hm]
      intro g2 s2 hne h1 h2
      exact absurd h2 (hne h1)
  | true =>
    by_cases ht : (r.trbs g 63).control &&& LINK_TOGGLE = 0
    · simp [linkToggle_pres_xor, ht, linkToggleSet, XhciRing.trbAt,
        TRBS_PER_SEGMENT, hnl0, hm]
      intro g2 s2 hne h1 h2
      exact absurd h2 (hne h1)
    · simp [linkToggle_pres_xor, ht, linkToggleSet, XhciRing.trbAt,
        TRBS_PER_SEGMENT, hnl0, hm]
      intro g2 s2 hne h1 h2
      exact absurd h2 (hne h1)

lemma inc_deq_event_mid {r : XhciRing} (h : WfEventRing r) (c : Bool) {g s : Nat}
    (hd : r.deq = (g, s)) (hs : s + 1 < 64) :
    (inc_deq r c).deq = (g, s + 1) ∧
    (inc_deq r c).cycle_state = r.cycle_state ∧
    (inc_deq r c).trbs = r.trbs ∧ (inc_deq r c).enq = r.enq := by
  rcases h with ⟨he, hn1⟩
  unfold inc_deq
  simp only [incDeqLoop, hd, last_trb, he, if_true, TRBS_PER_SEGMENT]
  have hne : (s + 1 == 64) = false := by
    simp
    omega
  simp [hne]

lemma inc_deq_event_wrap {r : XhciRing} (h : WfEventRing r) (c : Bool) {g : Nat}
    (hd : r.deq = (g, 63)) :
    (inc_deq r c).deq = ((g + 1) % r.numSegs, 0) ∧
    (inc_deq r c).cycle_state =
      (if c ∧ (g + 1) % r.numSegs = 0 then (if r.cycle_state ≠ 0 then 0 else 1)
       else r.cycle_state) ∧
    (inc_deq r c).trbs = r.trbs ∧ (inc_deq r c).enq = r.enq := by
  rcases h with ⟨he, hn1⟩
  obtain ⟨m, hm⟩ : ∃ m, r.numSegs = m + 1 := ⟨r.numSegs - 1, by omega⟩
  unfold inc_deq
  simp only [hd, incDeqLoop]
  rw [hm]
  simp only [incDeqLoop]
  simp only [last_trb, last_trb_on_last_seg, XhciRing.flipCycle, he, if_true,
    TRBS_PER_SEGMENT, Nat.reduceAdd, beq_self_eq_true, Bool.true_and]
  by_cases hc : c = true
  · by_cases hw : (g + 1) % (m + 1) = 0
    · simp [hc, hw]
    · simp [hc, hw]
  · simp only [Bool.not_eq_true] at hc
    simp [hc]

lemma inc_enq_event_mid {r : XhciRing} (h : WfEventRing r)
    (consumer more quirk : Bool) {g s : Nat}
    (hq : r.enq = (g, s)) (hs : s + 1 < 64) :
    (inc_enq r consumer more quirk).enq = (g, s + 1) ∧
    (inc_enq r consumer more quirk).cycle_state = r.cycle_state ∧
    (inc_enq r consumer more quirk).trbs = r.trbs ∧
    (inc_enq r consumer more quirk).deq = r.deq := by
  rcases h with ⟨he, hn1⟩
  unfold inc_enq
  simp only [incEnqLoop, hq, last_trb, he, if_true, TRBS_PER_SEGMENT]
  have hne : (s + 1 == 64) = false := by
    simp
    omega
  simp [hne]

lemma inc_enq_event_wrap {r : XhciRing} (h : WfEventRing r) (more quirk : Bool)
    {g : Nat} (hq : r.enq = (g, 63)) :
    (inc_enq r false more quirk).enq = ((g + 1) % r.numSegs, 0) ∧
    (inc_enq r false more quirk).cycle_state =
      (if (g + 1) % r.numSegs = 0 then (if r.cycle_state ≠ 0 then 0 else 1)
       else r.cycle_state) ∧
    (inc_enq r false more quirk).trbs = r.trbs ∧
    (inc_enq r false more quirk).deq = r.deq := by
  rcases h with ⟨he, hn1⟩
  obtain ⟨m, hm⟩ : ∃ m, r.numSegs = m + 1 := ⟨r.numSegs - 1, by omega⟩
  unfold inc_enq
  simp only [hq, incEnqLoop]
  rw [hm]
  simp only [incEnqLoop]
  simp only [last_trb, last_trb_on_last_seg, XhciRing.flipCycle, he, if_true,
    TRBS_PER_SEGMENT, Nat.reduceAdd, beq_self_eq_true, Bool.true_and,
    Bool.not_false, Bool.false_and, Bool.false_eq_true, if_false]
  by_cases hw : (g + 1) % (m + 1) = 0
  · simp [hw]
  · simp [hw]

lemma cycle_ite_ne (P : Prop) [Decidable P] (cs : Nat) :
    ((if P then (if cs ≠ 0 then 0 else 1) else cs) ≠ cs) ↔ P := by
  by_cases hp : P
  · by_cases hc : cs = 0
    · simp [hp, hc]
    · simp [hp, hc]
      omega
  · simp [hp]

def sampleTrb (c : Nat) : Trb := ⟨0, 0, 0, c⟩

/-- A two-segment transfer ring: each segment ends in a Link TRB, and
the second segment's Link TRB (which points back to segment 0) carries
LINK_TOGGLE, as `xhci_ring_alloc` sets it up. -/
def sampleRing : XhciRing where
  numSegs := 2
  isEvent := false
  segDma := fun g => 4096 + g * 4096
  trbs := fun g s =>
    if s = 63 then
      sampleTrb (TRB_TYPE TRB_LINK ||| (if g = 1 then LINK_TOGGLE else 0))
    else sampleTrb 0
  enq := (0, 2)
  deq := (0, 0)
  cycle_state := 1
  enq_updates := 0
  deq_updates := 0

lemma sampleRing_wf : WfRing sampleRing := by
  refine ⟨rfl, by decide, ?_, ?_⟩
  · intro g s hs
    have hs2 : ¬s = 63 := by
      simp only [TRBS_PER_SEGMENT] at hs
      omega
    simp only [sampleRing, XhciRing.trbAt, sampleTrb, hs2, if_false]
    decide
  · intro g
    by_cases hg : g = 1 <;>
      simp only [sampleRing, XhciRing.trbAt, sampleTrb, hg, if_true, if_false] <;>
      decide

/-- A two-segment event ring (no Link TRBs are consulted). -/
def sampleEventRing : XhciRing where
  numSegs := 2
  isEvent := true
  segDma := fun g => 32768 + g * 4096
  trbs := fun _ _ => sampleTrb 0
  enq := (0, 0)
  deq := (0, 5)
  cycle_state := 1
  enq_updates := 0
  deq_updates := 0

lemma sampleEventRing_wf : WfEventRing sampleEventRing := ⟨rfl, by decide⟩

/-- C1 (amended).  On a well-formed transfer/command ring, `inc_deq`
and `inc_enq` move their cursor one slot; when the new slot is a Link
TRB the cursor jumps to the next segment's first slot, EXCEPT that
`inc_enq` (producer side) halts on the Link TRB when the just-enqueued
TRB's chain bit is clear and `more_trbs_coming` is false.  On a link
crossing, `cycle_state` is flipped exactly when the Link TRB carries
the toggle flag AND the call runs on the matching side of the protocol
(`inc_deq` only with `consumer = true`, `inc_enq` only with
`consumer = false`).  For the event ring, `cycle_state` is flipped
only on the wrap from the last segment back to the first. -/
theorem C1_cursor_advance_link_skip :
    (∀ (r : XhciRing) (c : Bool) (g s : Nat), WfRing r → r.deq = (g, s) →
      s + 1 < 63 →
      (inc_deq r c).deq = (g, s + 1) ∧
      (inc_deq r c).cycle_state = r.cycle_state) ∧
    (∀ (r : XhciRing) (c : Bool) (g : Nat), WfRing r → r.deq = (g, 62) →
      (inc_deq r c).deq = ((g + 1) % r.numSegs, 0) ∧
      ((inc_deq r c).cycle_state ≠ r.cycle_state ↔
        (c = true ∧ linkToggleSet r g))) ∧
    (∀ (r : XhciRing) (consumer more quirk : Bool) (g s : Nat), WfRing r →
      r.enq = (g, s) → s + 1 < 63 →
      (inc_enq r consumer more quirk).enq = (g, s + 1) ∧
      (inc_enq r consumer more quirk).cycle_state = r.cycle_state) ∧
    (∀ (r : XhciRing) (quirk : Bool) (g : Nat), WfRing r → r.enq = (g, 62) →
      (r.trbs g 62).control &&& TRB_CHAIN = 0 →
      (inc_enq r false false quirk).enq = (g, 63) ∧
      (inc_enq r false false quirk).trbs = r.trbs ∧
      (inc_enq r false false quirk).cycle_state = r.cycle_state) ∧
    (∀ (r : XhciRing) (more quirk : Bool) (g : Nat), WfRing r →
      r.enq = (g, 62) →
      (more = true ∨ (r.trbs g 62).control &&& TRB_CHAIN ≠ 0) →
      (inc_enq r false more quirk).enq = ((g + 1) % r.numSegs, 0) ∧
      ((inc_enq r false more quirk).cycle_state ≠ r.cycle_state ↔
        linkToggleSet r g)) ∧
    (∀ (r : XhciRing) (c : Bool) (g s : Nat), WfEventRing r → r.deq = (g, s) →
      s + 1 < 64 →
      (inc_deq r c).deq = (g, s + 1) ∧
      (inc_deq r c).cycle_state = r.cycle_state) ∧
    (∀ (r : XhciRing) (c : Bool) (g : Nat), WfEventRing r → r.deq = (g, 63) →
      (inc_deq r c).deq = ((g + 1) % r.numSegs, 0) ∧
      ((inc_deq r c).cycle_state ≠ r.cycle_state ↔
        (c = true ∧ (g + 1) % r.numSegs = 0))) ∧
    (∀ (r : XhciRing) (more quirk : Bool) (g : Nat), WfEventRing r →
      r.enq = (g, 63) →
      (inc_enq r false more quirk).enq = ((g + 1) % r.numSegs, 0) ∧
      ((inc_enq r false more quirk).cycle_state ≠ r.cycle_state ↔
        (g + 1) % r.numSegs = 0)) := by
  refine ⟨?_, ?_, ?_, ?_, ?_, ?_, ?_, ?_⟩
  · intro r c g s h hd hs
    exact ⟨(inc_deq_wf_mid h c hd hs).1, (inc_deq_wf_mid h c hd hs).2.1⟩
  · intro r c g h hd
    refine ⟨(inc_deq_wf_cross h c hd).1, ?_⟩
    rw [(inc_deq_wf_cross h c hd).2.1]
    exact cycle_ite_ne _ r.cycle_state
  · intro r consumer more quirk g s h hq hs
    exact ⟨(inc_enq_wf_mid h consumer more quirk hq hs).1,
      (inc_enq_wf_mid h consumer more quirk hq hs).2.1⟩
  · intro r quirk g h hq hch
    exact ⟨(inc_enq_wf_defer h quirk hq hch).1,
      (inc_enq_wf_defer h quirk hq hch).2.2.1,
      (inc_enq_wf_defer h quirk hq hch).2.1⟩
  · intro r more quirk g h hq hnb
    refine ⟨(inc_enq_wf_handoff h more quirk hq hnb).1, ?_⟩
    rw [(inc_enq_wf_handoff h more quirk hq hnb).2.2.2.1]
    exact cycle_ite_ne _ r.cycle_state
  · intro r c g s h hd hs
    exact ⟨(inc_deq_event_mid h c hd hs).1, (inc_deq_event_mid h c hd hs).2.1⟩
  · intro r c g h hd
    refine ⟨(inc_deq_event_wrap h c hd).1, ?_⟩
    rw [(inc_deq_event_wrap h c hd).2.1]
    exact cycle_ite_ne _ r.cycle_state
  · intro r more quirk g h hq
    refine ⟨(inc_enq_event_wrap h more quirk hq).1, ?_⟩
    rw [(inc_enq_event_wrap h more quirk hq).2.1]
    exact cycle_ite_ne _ r.cycle_state

/-- Ring whose enqueue cursor sits just before the Link TRB of segment
0, the TRB at the cursor having a clear chain bit. -/
def ringEnqChainClear : XhciRing := { sampleRing with enq := (0, 62) }

/-- Ring whose dequeue cursor sits just before the toggle-carrying Link
TRB of segment 1. -/
def ringDeqAtToggle : XhciRing := { sampleRing with deq := (1, 62) }

/-- C1, counterexample to the claim as stated: advancing the enqueue
cursor with `more_trbs_coming = false` (chain bit clear) lands on a
Link TRB and does NOT jump to the linked segment's first slot, and
advancing the dequeue cursor with `consumer = false` across a
toggle-carrying Link TRB does NOT flip `cycle_state`. -/
theorem C1_counterexample :
    last_trb ringEnqChainClear 0 63 = true ∧
    (inc_enq ringEnqChainClear false false false).enq = (0, 63) ∧
    linkToggleSet ringDeqAtToggle 1 ∧
    (inc_deq ringDeqAtToggle false).deq = (0, 0) ∧
    (inc_deq ringDeqAtToggle false).cycle_state =
      ringDeqAtToggle.cycle_state := by
  decide

def sampleRingEnq62 : XhciRing := { sampleRing with enq := (1, 62) }

lemma sampleRingEnq62_wf : WfRing sampleRingEnq62 := sampleRing_wf

/-- C1 witness: concrete instances of the amended statement. -/
theorem C1_witness :
    (inc_deq sampleRing true).deq = (0, 1) ∧
    (inc_enq sampleRingEnq62 false true false).enq = (0, 0) ∧
    (inc_enq sampleRingEnq62 false true false).cycle_state ≠
      sampleRingEnq62.cycle_state := by
  refine ⟨(C1_cursor_advance_link_skip.1 sampleRing true 0 0 sampleRing_wf rfl
      (by decide)).1,
    (C1_cursor_advance_link_skip.2.2.2.2.1 sampleRingEnq62 true false 1
      sampleRingEnq62_wf rfl (Or.inl rfl)).1,
    (C1_cursor_advance_link_skip.2.2.2.2.1 sampleRingEnq62 true false 1
      sampleRingEnq62_wf rfl (Or.inl rfl)).2.mpr (by decide)⟩

lemma testBit_sixteen_zero : Nat.testBit 16 0 = false := by decide

lemma testBit_ffffffef_zero : Nat.testBit 4294967279 0 = true := by decide

lemma testBit_one_zero : Nat.testBit 1 0 = true := by decide

lemma cycleBit_chain_noquirk (a x : Nat) :
    ((a &&& NOT_TRB_CHAIN) ||| (x &&& TRB_CHAIN)) &&& TRB_CYCLE = a &&& TRB_CYCLE := by
  have h1 : TRB_CYCLE = 2 ^ 0 := rfl
  rw [h1, Nat.and_two_pow, Nat.and_two_pow]
  congr 1
  simp [Nat.testBit_or, Nat.testBit_and, NOT_TRB_CHAIN, TRB_CHAIN,
    testBit_ffffffef_zero, testBit_sixteen_zero]

lemma cycleBit_chain_quirk (a : Nat) :
    (a ||| TRB_CHAIN) &&& TRB_CYCLE = a &&& TRB_CYCLE := by
  have h1 : TRB_CYCLE = 2 ^ 0 := rfl
  rw [h1, Nat.and_two_pow, Nat.and_two_pow]
  congr 1
  simp [Nat.testBit_or, TRB_CHAIN, testBit_sixteen_zero]

lemma linkToggle_pres_andnot (a : Nat) :
    ((a &&& NOT_TRB_CHAIN) ^^^ TRB_CYCLE) &&& LINK_TOGGLE = a &&& LINK_TOGGLE := by
  have h2 : LINK_TOGGLE = 2 ^ 1 := rfl
  rw [h2, Nat.and_two_pow, Nat.and_two_pow]
  congr 1
  simp [Nat.testBit_xor, Nat.testBit_and, NOT_TRB_CHAIN, TRB_CYCLE, TRB_CHAIN,
    testBit_ffffffef_one, testBit_one_one, testBit_sixteen_one,
    show Nat.testBit 4294967295 1 = true from by decide]

lemma cycleBit_andnot (a : Nat) :
    (a &&& NOT_TRB_CHAIN) &&& TRB_CYCLE = a &&& TRB_CYCLE := by
  have h1 : TRB_CYCLE = 2 ^ 0 := rfl
  rw [h1, Nat.and_two_pow, Nat.and_two_pow]
  congr 1
  simp [Nat.testBit_and, NOT_TRB_CHAIN, TRB_CHAIN, Nat.testBit_xor,
    testBit_sixteen_zero, show Nat.testBit 4294967295 0 = true from by decide]

lemma cycleBit_xor_flips (a : Nat) :
    (a ^^^ TRB_CYCLE) &&& TRB_CYCLE ≠ a &&& TRB_CYCLE := by
  have h1 : TRB_CYCLE = 2 ^ 0 := rfl
  rw [h1, Nat.and_two_pow, Nat.and_two_pow]
  have hx : (a ^^^ 2 ^ 0).testBit 0 = ((a.testBit 0).xor true) := by
    rw [Nat.testBit_xor]
    rw [show Nat.testBit (2 ^ 0) 0 = true from by decide]
  rw [hx]
  cases h : a.testBit 0 <;> simp

/-- `prepare_ring` on a well-formed ring whose enqueue cursor was left
on a (deferred) Link TRB, with an allowed endpoint state and enough
room: the Link TRB is handed to the hardware (chain adjusted per the
quirk, cycle bit XOR-ed), `cycle_state` is toggled exactly when the
Link TRB carries LINK_TOGGLE, and the enqueue cursor moves to the next
segment's first slot. -/
lemma prepare_ring_at_link {r : XhciRing} (h : WfRing r) (quirk : Bool)
    {g n : Nat} (hq : r.enq = (g, 63)) (hroom : room_on_ring r n = true) :
    (prepare_ring r EP_STATE_RUNNING n quirk).1 = 0 ∧
    (prepare_ring r EP_STATE_RUNNING n quirk).2.enq = ((g + 1) % r.numSegs, 0) ∧
    ((prepare_ring r EP_STATE_RUNNING n quirk).2.trbs g 63).control =
      ((if quirk then (r.trbs g 63).control ||| TRB_CHAIN
        else (r.trbs g 63).control &&& NOT_TRB_CHAIN) ^^^ TRB_CYCLE) ∧
    (∀ g2 s2, ¬(g2 = g ∧ s2 = 63) →
      (prepare_ring r EP_STATE_RUNNING n quirk).2.trbs g2 s2 = r.trbs g2 s2) ∧
    (prepare_ring r EP_STATE_RUNNING n quirk).2.cycle_state =
      (if linkToggleSet r g then (if r.cycle_state ≠ 0 then 0 else 1)
       else r.cycle_state) ∧
    (prepare_ring r EP_STATE_RUNNING n quirk).2.deq = r.deq := by
  rcases h with ⟨he, hn1, hnl, hl⟩
  obtain ⟨m, hm⟩ : ∃ m, r.numSegs = m + 1 := ⟨r.numSegs - 1, by omega⟩
  have hl63 : (r.trbs g 63).control &&& TRB_TYPE_BITMASK = TRB_TYPE TRB_LINK := by
    simpa using hl g
  have hnl0 : ∀ g2, ¬((r.trbs g2 0).control &&& TRB_TYPE_BITMASK = TRB_TYPE TRB_LINK) :=
    fun g2 => by simpa using hnl g2 0 (by decide)
  have hlink : enqueue_is_link_trb r = true := by
    simp [enqueue_is_link_trb, hq, XhciRing.trbAt, hl63]
  unfold prepare_ring
  rw [if_neg (by decide), if_neg (by decide),
    if_pos (Or.inr (Or.inr rfl)), hroom]
  simp only [Bool.not_true, Bool.false_eq_true, if_false, hlink, if_true]
  unfold prepRingLoop
  rw [hm]
  simp only [prepRingLoop, hq]
  simp only [last_trb, last_trb_on_last_seg, XhciRing.trbAt, XhciRing.flipCycle,
    XhciRing.setControl, he, Bool.false_eq_true, if_false, Nat.reduceAdd]
  simp only [hl63, beq_self_eq_true, if_true]
  cases quirk with
  | false =>
    by_cases ht : (r.trbs g 63).control &&& LINK_TOGGLE = 0
    · simp [linkToggle_pres_andnot, ht, linkToggleSet,
        XhciRing.trbAt, TRBS_PER_SEGMENT, hnl0, hm]
      intro g2 s2 hne h1 h2
      exact absurd h2 (hne h1)
    · simp [linkToggle_pres_andnot, ht, linkToggleSet,
        XhciRing.trbAt, TRBS_PER_SEGMENT, hnl0, hm]
      intro g2 s2 hne h1 h2
      exact absurd h2 (hne h1)
  | true =>
    by_cases ht : (r.trbs g 63).control &&& LINK_TOGGLE = 0
    · simp [linkToggle_pres_quirk, ht, linkToggleSet,
        XhciRing.trbAt, TRBS_PER_SEGMENT, hnl0, hm]
      intro g2 s2 hne h1 h2
      exact absurd h2 (hne h1)
    · simp [linkToggle_pres_quirk, ht, linkToggleSet,
        XhciRing.trbAt, TRBS_PER_SEGMENT, hnl0, hm]
      intro g2 s2 hne h1 h2
      exact absurd h2 (hne h1)

/-- C2 (amended).  On a producer advance that lands on a Link TRB of a
well-formed transfer/command ring: when the just-enqueued TRB chains on
(TRB_CHAIN set) or the caller announces more TRBs
(`more_trbs_coming = true`), the Link TRB is handed to the hardware at
once (its cycle bit is flipped); when the TD is complete (chain bit
clear) and `more_trbs_coming = false` the handover is deferred — the
Link TRB is left untouched with the cursor parked on it — and the
deferred flip is performed by `prepare_ring` just before the next TD is
enqueued (also toggling `cycle_state` when the Link TRB carries
LINK_TOGGLE). -/
theorem C2_link_trb_deferred_handover :
    (∀ (r : XhciRing) (quirk : Bool) (g : Nat), WfRing r → r.enq = (g, 62) →
      (r.trbs g 62).control &&& TRB_CHAIN = 0 →
      (inc_enq r false false quirk).trbs = r.trbs ∧
      (inc_enq r false false quirk).enq = (g, 63)) ∧
    (∀ (r : XhciRing) (more quirk : Bool) (g : Nat), WfRing r →
      r.enq = (g, 62) →
      (more = true ∨ (r.trbs g 62).control &&& TRB_CHAIN ≠ 0) →
      ((inc_enq r false more quirk).trbs g 63).control &&& TRB_CYCLE ≠
        (r.trbs g 63).control &&& TRB_CYCLE) ∧
    (∀ (r : XhciRing) (quirk : Bool) (g n : Nat), WfRing r → r.enq = (g, 63) →
      room_on_ring r n = true →
      (prepare_ring r EP_STATE_RUNNING n quirk).1 = 0 ∧
      ((prepare_ring r EP_STATE_RUNNING n quirk).2.trbs g 63).control &&&
          TRB_CYCLE ≠ (r.trbs g 63).control &&& TRB_CYCLE ∧
      (prepare_ring r EP_STATE_RUNNING n quirk).2.enq =
        ((g + 1) % r.numSegs, 0) ∧
      ((prepare_ring r EP_STATE_RUNNING n quirk).2.cycle_state ≠
          r.cycle_state ↔ linkToggleSet r g)) := by
  refine ⟨?_, ?_, ?_⟩
  · intro r quirk g h hq hch
    exact ⟨(inc_enq_wf_defer h quirk hq hch).2.2.1,
      (inc_enq_wf_defer h quirk hq hch).1⟩
  · intro r more quirk g h hq hnb
    have hc := (inc_enq_wf_handoff h more quirk hq hnb).2.1
    rw [hc]
    cases quirk with
    | false =>
      simp only [Bool.false_eq_true, if_false]
      rw [← cycleBit_chain_noquirk (r.trbs g 63).control (r.trbs g 62).control]
      exact cycleBit_xor_flips _
    | true =>
      simp only [if_true]
      exact cycleBit_xor_flips _
  · intro r quirk g n h hq hroom
    have hp := prepare_ring_at_link h quirk hq hroom
    refine ⟨hp.1, ?_, hp.2.1, ?_⟩
    · rw [hp.2.2.1]
      cases quirk with
      | false =>
        simp only [Bool.false_eq_true, if_false]
        rw [← cycleBit_andnot (r.trbs g 63).control]
        exact cycleBit_xor_flips _
      | true =>
        simp only [if_true]
        rw [← cycleBit_chain_quirk (r.trbs g 63).control]
        exact cycleBit_xor_flips _
    · rw [hp.2.2.2.2.1]
      exact cycle_ite_ne _ r.cycle_state

/-- C2, counterexample to the claim as stated: with
`more_trbs_coming = true` the Link TRB IS handed to hardware (cycle bit
flipped) even though the caller has not yet confirmed that no more TRBs
are coming, while with `more_trbs_coming = false` (chain clear) the
flip is deferred — the opposite polarity of the claim. -/
theorem C2_counterexample :
    ((inc_enq ringEnqChainClear false true false).trbs 0 63).control &&&
        TRB_CYCLE = 1 ∧
    (ringEnqChainClear.trbs 0 63).control &&& TRB_CYCLE = 0 ∧
    ((inc_enq ringEnqChainClear false false false).trbs 0 63).control =
      (ringEnqChainClear.trbs 0 63).control := by
  decide

/-- Ring parked on the Link TRB of segment 0 (a deferred handover). -/
def ringEnqOnLink : XhciRing := { sampleRing with enq := (0, 63) }

lemma ringEnqOnLink_wf : WfRing ringEnqOnLink := sampleRing_wf

/-- C2 witness: concrete instances of the amended statement. -/
theorem C2_witness :
    ((inc_enq ringEnqChainClear false false false).trbs = ringEnqChainClear.trbs ∧
      (inc_enq ringEnqChainClear false false false).enq = (0, 63)) ∧
    ((inc_enq ringEnqChainClear false true false).trbs 0 63).control &&&
        TRB_CYCLE ≠ (ringEnqChainClear.trbs 0 63).control &&& TRB_CYCLE ∧
    (prepare_ring ringEnqOnLink EP_STATE_RUNNING 3 false).1 = 0 ∧
    (prepare_ring ringEnqOnLink EP_STATE_RUNNING 3 false).2.enq = (1, 0) := by
  refine ⟨C2_link_trb_deferred_handover.1 ringEnqChainClear false 0
      sampleRing_wf rfl (by decide),
    C2_link_trb_deferred_handover.2.1 ringEnqChainClear true false 0
      sampleRing_wf rfl (Or.inl rfl),
    (C2_link_trb_deferred_handover.2.2 ringEnqOnLink false 0 3
      ringEnqOnLink_wf rfl (by decide)).1, ?_⟩
  have := (C2_link_trb_deferred_handover.2.2 ringEnqOnLink false 0 3
      ringEnqOnLink_wf rfl (by decide)).2.2.1
  simpa using this

lemma roomLoop_iff_walk (r : XhciRing) :
    ∀ (k : Nat) (p : XRingPos), roomLoop r (r.numSegs + 1) k p = true ↔
      ∀ i, i < k → walkPos r p i ≠ r.deq := by
  intro k
  induction k with
  | zero => simp [roomLoop]
  | succ k ih =>
    intro p
    rw [roomLoop]
    by_cases hp : p = r.deq
    · simp only [hp, if_true, Bool.false_eq_true, false_iff]
      intro hall
      exact hall 0 (Nat.succ_pos k) rfl
    · rw [if_neg hp]
      rw [ih]
      constructor
      · intro hall i hi
        cases i with
        | zero => exact hp
        | succ j => exact hall j (by omega)
      · intro hall i hi
        exact hall (i + 1) (by omega)

/-- `room_on_ring` agrees with the spec-level free-slot count: the
`num_trbs + 1` simulated slots starting at the (link-skipped) enqueue
cursor must all avoid the dequeue cursor, and on an empty ring
`num_trbs + 1` of the `numSegs * (TRBS_PER_SEGMENT - 1)` usable slots
must exist. -/
lemma room_on_ring_iff_spec {r : XhciRing} (hn : 1 ≤ r.numSegs) (n : Nat) :
    (room_on_ring r n = true ↔ has_room_spec r n) := by
  unfold room_on_ring has_room_spec
  by_cases he : skipLinks r (r.numSegs + 1) r.enq = r.deq
  · simp only [he, if_true]
    simp only [decide_eq_true_eq, TRBS_PER_SEGMENT]
    constructor
    · intro h2
      have h63 : (1:Nat) ≤ r.numSegs * 63 := by nlinarith
      omega
    · intro h2
      omega
  · rw [if_neg he, if_neg he]
    rw [roomLoop_iff_walk]
    constructor
    · intro hall i hi1 hi2
      exact hall i (by omega)
    · intro hall i hi
      cases i with
      | zero => exact he
      | succ j => exact hall (j + 1) (by omega) (by omega)

/-- `prepare_ring` with an admissible endpoint state but insufficient
room fails with -ENOMEM and leaves the ring untouched (the room check
precedes every mutation of the enqueue path). -/
lemma prepare_ring_no_room {r : XhciRing} {st n : Nat} (quirk : Bool)
    (hok : st = EP_STATE_HALTED ∨ st = EP_STATE_STOPPED ∨ st = EP_STATE_RUNNING)
    (hroom : room_on_ring r n = false) :
    prepare_ring r st n quirk = (-ENOMEM, r) := by
  unfold prepare_ring
  have h1 : ¬st = EP_STATE_DISABLED := by
    rcases hok with h | h | h <;> simp [h, EP_STATE_DISABLED, EP_STATE_HALTED,
      EP_STATE_STOPPED, EP_STATE_RUNNING]
  have h2 : ¬st = EP_STATE_ERROR := by
    rcases hok with h | h | h <;> simp [h, EP_STATE_ERROR, EP_STATE_HALTED,
      EP_STATE_STOPPED, EP_STATE_RUNNING]
  rw [if_neg h1, if_neg h2, if_pos hok, hroom]
  simp

/-- C3.  The room check of the enqueue path: `prepare_ring` runs
`room_on_ring` before any ring mutation and fails with -ENOMEM leaving
the ring exactly as it was (no TRB enqueued, no cursor or cycle change)
whenever the check fails; and `room_on_ring` returns true exactly when
`n + 1` free slots (the requested `n` plus the mandatory spare) are
available, counted by pure simulated cursor advancement with link-skip
(`has_room_spec`, which never mutates the ring). -/
theorem C3_room_check_gate :
    (∀ (r : XhciRing) (st n : Nat) (quirk : Bool),
      (st = EP_STATE_HALTED ∨ st = EP_STATE_STOPPED ∨ st = EP_STATE_RUNNING) →
      room_on_ring r n = false →
      prepare_ring r st n quirk = (-ENOMEM, r)) ∧
    (∀ (r : XhciRing) (n : Nat), 1 ≤ r.numSegs →
      (room_on_ring r n = true ↔ has_room_spec r n)) := by
  refine ⟨?_, ?_⟩
  · intro r st n quirk hok hroom
    exact prepare_ring_no_room quirk hok hroom
  · intro r n hn
    exact room_on_ring_iff_spec hn n

/-- Ring with a single free slot in front of the dequeue cursor. -/
def ringNearFull : XhciRing := { sampleRing with deq := (0, 3) }

/-- C3 witness: on `ringNearFull` a request for one TRB fails (no spare
slot would remain): `prepare_ring` reports -ENOMEM and returns the ring
unchanged, and the spec-level count agrees; on the empty `sampleRing`
a request for three TRBs succeeds. -/
theorem C3_witness :
    prepare_ring ringNearFull EP_STATE_RUNNING 1 false = (-ENOMEM, ringNearFull) ∧
    (room_on_ring ringNearFull 1 = true ↔ has_room_spec ringNearFull 1) ∧
    (room_on_ring sampleRing 3 = true ↔ has_room_spec sampleRing 3) := by
  refine ⟨C3_room_check_gate.1 ringNearFull EP_STATE_RUNNING 1 false
      (Or.inr (Or.inr rfl)) (by decide),
    C3_room_check_gate.2 ringNearFull 1 (by decide),
    C3_room_check_gate.2 sampleRing 3 (by decide)⟩

lemma trb_max_eq : TRB_MAX_BUFF_SIZE = 65536 := rfl

lemma bulkCountWhileF_bound (len : Nat) :
    ∀ (fuel rt : Nat), len - rt ≤ fuel →
      len - rt ≤ bulkCountWhileF fuel rt len * TRB_MAX_BUFF_SIZE := by
  intro fuel
  induction fuel with
  | zero =>
    intro rt h
    simp only [bulkCountWhileF]
    omega
  | succ d ih =>
    intro rt h
    by_cases hlt : rt < len
    · rw [bulkCountWhileF, if_pos hlt]
      have h2 : len - (rt + TRB_MAX_BUFF_SIZE) ≤ d := by
        simp only [trb_max_eq] at *
        omega
      have h3 := ih (rt + TRB_MAX_BUFF_SIZE) h2
      simp only [trb_max_eq] at *
      omega
    · rw [bulkCountWhileF, if_neg hlt]
      omega

lemma bulkCountWhile_bound (len rt : Nat) :
    len - rt ≤ bulkCountWhile rt len * TRB_MAX_BUFF_SIZE :=
  bulkCountWhileF_bound len len rt (by omega)

lemma bulkLoop_sum (maxp len : Nat) :
    ∀ (n rt addr : Nat), len - rt ≤ n * TRB_MAX_BUFF_SIZE →
      ((bulkLoop maxp len n addr (min (len - rt) TRB_MAX_BUFF_SIZE) rt).map
        BulkTrb.len).sum = len - rt := by
  intro n
  induction n with
  | zero =>
    intro rt addr h
    simp only [bulkLoop, List.map_nil, List.sum_nil]
    omega
  | succ n ih =>
    intro rt addr h
    rw [bulkLoop]
    simp only [List.map_cons, List.sum_cons]
    have hb : len - (rt + min (len - rt) TRB_MAX_BUFF_SIZE) ≤ n * TRB_MAX_BUFF_SIZE := by
      simp only [trb_max_eq] at *
      omega
    rw [ih (rt + min (len - rt) TRB_MAX_BUFF_SIZE) (addr + min (len - rt) TRB_MAX_BUFF_SIZE) hb]
    omega

lemma bulkLoop_inOne64K (maxp len : Nat) :
    ∀ (n addr tbl rt : Nat),
      tbl ≤ TRB_MAX_BUFF_SIZE - addr % TRB_MAX_BUFF_SIZE →
      (tbl = TRB_MAX_BUFF_SIZE - addr % TRB_MAX_BUFF_SIZE ∨ rt + tbl = len) →
      rt + tbl ≤ len →
      ∀ t ∈ bulkLoop maxp len n addr tbl rt, inOne64K t.addr t.len := by
  intro n
  induction n with
  | zero =>
    intro addr tbl rt h1 h2 h3 t ht
    simp [bulkLoop] at ht
  | succ n ih =>
    intro addr tbl rt h1 h2 h3 t ht
    rw [bulkLoop] at ht
    simp only [List.mem_cons] at ht
    rcases ht with ht | ht
    · subst ht
      simp only [inOne64K, trb_max_eq] at *
      omega
    · refine ih (addr + tbl) (min (len - (rt + tbl)) TRB_MAX_BUFF_SIZE) (rt + tbl)
        ?_ ?_ ?_ t ht
      · rcases h2 with h2 | h2
        · have hmod : (addr + tbl) % TRB_MAX_BUFF_SIZE = 0 := by
            simp only [trb_max_eq] at *
            omega
          rw [hmod]
          exact Nat.min_le_right _ _
        · have hz : len - (rt + tbl) = 0 := by omega
          rw [hz]
          simp
      · rcases h2 with h2 | h2
        · rcases Nat.le_total (len - (rt + tbl)) TRB_MAX_BUFF_SIZE with hle | hle
          · right
            rw [Nat.min_eq_left hle]
            omega
          · left
            rw [Nat.min_eq_right hle]
            have hmod : (addr + tbl) % TRB_MAX_BUFF_SIZE = 0 := by
              simp only [trb_max_eq] at *
              omega
            rw [hmod]
            exact (Nat.sub_zero _).symm
        · right
          have hz : len - (rt + tbl) = 0 := by omega
          rw [hz]
          simp only [Nat.zero_min, Nat.add_zero]
          omega
      · have := Nat.min_le_left (len - (rt + tbl)) TRB_MAX_BUFF_SIZE
        omega

lemma bulkLoop_length (maxp len : Nat) :
    ∀ (n a t r : Nat), (bulkLoop maxp len n a t r).length = n := by
  intro n
  induction n with
  | zero => intro a t r; rfl
  | succ n ih =>
    intro a t r
    rw [bulkLoop]
    simp only [List.length_cons, ih]

lemma bulk_trbs_sum (dma len maxp : Nat) (zlp : Bool) :
    ((xhci_queue_bulk_tx_trbs dma len maxp zlp).map BulkTrb.len).sum = len := by
  unfold xhci_queue_bulk_tx_trbs bulk_num_trbs
  set b := TRB_MAX_BUFF_SIZE - dma % TRB_MAX_BUFF_SIZE with hb
  set k := bulkCountWhile b len with hk
  set z := (if zlp && len % maxp == 0 then 1 else 0) with hz
  have hb0 : b ≠ 0 := by
    rw [hb, trb_max_eq]
    omega
  have hbT : b ≤ TRB_MAX_BUFF_SIZE := by
    rw [hb]
    omega
  dsimp only
  rw [if_pos (Or.inl hb0)]
  by_cases hble : len ≤ b
  · have hfirst : min b len = min (len - 0) TRB_MAX_BUFF_SIZE := by
      simp only [trb_max_eq] at *
      omega
    rw [hfirst]
    rw [bulkLoop_sum maxp len (1 + k + z) 0 dma (by
      simp only [trb_max_eq] at *
      omega)]
    omega
  · have hfirst : min b len = b := Nat.min_eq_left (by omega)
    have hnum : 1 + k + z = (k + z) + 1 := by omega
    rw [hnum, bulkLoop]
    simp only [List.map_cons, List.sum_cons, hfirst, Nat.zero_add]
    have hcount : len - b ≤ k * TRB_MAX_BUFF_SIZE :=
      bulkCountWhile_bound len b
    rw [bulkLoop_sum maxp len (k + z) b (dma + b) (by
      simp only [trb_max_eq] at *
      omega)]
    omega

lemma bulk_trbs_region (dma len maxp : Nat) (zlp : Bool) :
    ∀ t ∈ xhci_queue_bulk_tx_trbs dma len maxp zlp,
      inOne64K t.addr t.len := by
  intro t ht
  unfold xhci_queue_bulk_tx_trbs at ht
  set b := TRB_MAX_BUFF_SIZE - dma % TRB_MAX_BUFF_SIZE with hb
  refine bulkLoop_inOne64K maxp len _ dma (min b len) 0 ?_ ?_ ?_ t ht
  · exact hb ▸ Nat.min_le_left b len
  · rcases Nat.le_total b len with h | h
    · left
      rw [Nat.min_eq_left h, hb]
    · right
      rw [Nat.min_eq_right h]
      omega
  · simpa using Nat.min_le_right b len

lemma bulk_trbs_length (dma len maxp : Nat) (zlp : Bool) :
    (xhci_queue_bulk_tx_trbs dma len maxp zlp).length =
      bulk_num_trbs dma len maxp zlp := by
  unfold xhci_queue_bulk_tx_trbs
  dsimp only
  rw [bulkLoop_length]

lemma bulk_num_trbs_pos (dma len maxp : Nat) (zlp : Bool) :
    0 < bulk_num_trbs dma len maxp zlp := by
  unfold bulk_num_trbs
  have hb0 : TRB_MAX_BUFF_SIZE - dma % TRB_MAX_BUFF_SIZE ≠ 0 := by
    rw [trb_max_eq]
    omega
  dsimp only
  rw [if_pos (Or.inl hb0)]
  omega

/-- C4.  The bulk TD builder (contiguous-buffer path of
`xhci_queue_bulk_tx`): every emitted TRB's byte range stays inside one
64 KB-aligned region of the buffer address, and the emitted TRB lengths
sum exactly to the requested transfer length. -/
theorem C4_bulk_split_sum_and_region :
    ∀ (dma len maxp : Nat) (zlp : Bool),
      ((xhci_queue_bulk_tx_trbs dma len maxp zlp).map BulkTrb.len).sum = len ∧
      (∀ t ∈ xhci_queue_bulk_tx_trbs dma len maxp zlp,
        inOne64K t.addr t.len) :=
  fun dma len maxp zlp =>
    ⟨bulk_trbs_sum dma len maxp zlp, bulk_trbs_region dma len maxp zlp⟩

/-- C4 witness: the spec scenario — a 70000-byte bulk OUT transfer at
DMA address 0x1000 splits into two TRBs (61440 + 8560 bytes) whose
lengths sum to 70000, each within one 64 KB region. -/
theorem C4_witness :
    ((xhci_queue_bulk_tx_trbs 4096 70000 512 false).map BulkTrb.len).sum
      = 70000 ∧
    inOne64K 4096 61440 := by
  refine ⟨(C4_bulk_split_sum_and_region 4096 70000 512 false).1, ?_⟩
  have hmem : (⟨4096, 61440, 31 <<< 17⟩ : BulkTrb) ∈
      xhci_queue_bulk_tx_trbs 4096 70000 512 false := by decide
  have := (C4_bulk_split_sum_and_region 4096 70000 512 false).2 _ hmem
  simpa using this

lemma sat_shift_min (v : Nat) :
    (if v > 31 then 31 <<< 17 else v <<< 17) = (min 31 v) <<< 17 := by
  by_cases h : v > 31
  · rw [if_pos h, Nat.min_eq_left (by omega)]
  · rw [if_neg h, Nat.min_eq_right (by omega)]

lemma xhci_td_remainder_eq (len rt maxp tbl : Nat) :
    xhci_td_remainder len rt maxp tbl =
      (if rt + tbl = len then 0
       else (min 31 (DIV_ROUND_UP len maxp - rt / maxp)) <<< 17) := by
  unfold xhci_td_remainder
  by_cases h : rt + tbl = len
  · rw [if_pos h, if_pos h]
  · rw [if_neg h, if_neg h, sat_shift_min]

/-- The remainder value of each emitted TRB, in terms of the running
total at the loop entry plus the lengths already emitted. -/
lemma bulkLoop_rem_val (maxp len : Nat) :
    ∀ (n : Nat) (a t r i : Nat) (hi : i < (bulkLoop maxp len n a t r).length),
      ((bulkLoop maxp len n a t r).get ⟨i, hi⟩).rem =
        xhci_td_remainder len
          (r + (((bulkLoop maxp len n a t r).take i).map BulkTrb.len).sum)
          maxp ((bulkLoop maxp len n a t r).get ⟨i, hi⟩).len := by
  intro n
  induction n with
  | zero =>
    intro a t r i hi
    simp [bulkLoop] at hi
  | succ n ih =>
    intro a t r i hi
    simp only [bulkLoop] at hi ⊢
    cases i with
    | zero => simp
    | succ j =>
      simp only [List.get_cons_succ, List.take_succ_cons, List.map_cons,
        List.sum_cons]
      have hj : j < (bulkLoop maxp len n (a + t) (min (len - (r + t)) TRB_MAX_BUFF_SIZE) (r + t)).length := by
        simpa using hi
      have := ih (a + t) (min (len - (r + t)) TRB_MAX_BUFF_SIZE) (r + t) j hj
      rw [this]
      ring_nf

lemma td_remainder_le (len maxp rt tbl rt2 tbl2 : Nat) (hrt : rt ≤ rt2)
    (hg : rt + tbl = len → rt2 + tbl2 = len) :
    xhci_td_remainder len rt2 maxp tbl2 ≤ xhci_td_remainder len rt maxp tbl := by
  rw [xhci_td_remainder_eq, xhci_td_remainder_eq]
  by_cases h2 : rt2 + tbl2 = len
  · simp [h2]
  · rw [if_neg h2]
    rw [if_neg (fun hc => h2 (hg hc))]
    have hmono : DIV_ROUND_UP len maxp - rt2 / maxp ≤
        DIV_ROUND_UP len maxp - rt / maxp :=
      Nat.sub_le_sub_left (Nat.div_le_div_right hrt) _
    have hmin : min 31 (DIV_ROUND_UP len maxp - rt2 / maxp) ≤
        min 31 (DIV_ROUND_UP len maxp - rt / maxp) :=
      min_le_min (le_refl 31) hmono
    rw [Nat.shiftLeft_eq, Nat.shiftLeft_eq]
    exact Nat.mul_le_mul_right _ hmin

lemma bulkLoop_rem_chain (maxp len : Nat) :
    ∀ (n a t r : Nat),
      List.Chain' (fun x y => y.rem ≤ x.rem) (bulkLoop maxp len n a t r) := by
  intro n
  induction n with
  | zero =>
    intro a t r
    simp [bulkLoop]
  | succ n ih =>
    intro a t r
    simp only [bulkLoop]
    rw [List.chain'_cons']
    refine ⟨?_, ih _ _ _⟩
    intro y hy
    cases n with
    | zero => simp [bulkLoop] at hy
    | succ m =>
      simp only [bulkLoop, List.head?_cons, Option.mem_def, Option.some.injEq] at hy
      rw [← hy]
      exact td_remainder_le len maxp r t (r + t) _ (Nat.le_add_right r t)
        (by
          intro hc
          have hz2 : len - (r + t) = 0 := by omega
          simp [hz2, hc])

lemma map_sum_split_last (f : BulkTrb → Nat) :
    ∀ (l : List BulkTrb) (i : Nat) (hi : i + 1 = l.length) (h2 : i < l.length),
      ((l.take i).map f).sum + f (l.get ⟨i, h2⟩) = (l.map f).sum := by
  intro l
  induction l with
  | nil =>
    intro i hi h2
    simp at h2
  | cons a as ih =>
    intro i hi h2
    cases i with
    | zero =>
      have has : as = [] := by
        have : as.length = 0 := by simpa using hi
        exact List.length_eq_zero.mp this
      subst has
      simp
    | succ j =>
      simp only [List.take_succ_cons, List.map_cons, List.sum_cons,
        List.get_cons_succ]
      rw [← ih j (by simpa using hi) (by simpa using h2)]
      ring

lemma bulkLoop_rem_pos (maxp len : Nat) (hm : 0 < maxp) :
    ∀ (n a t r : Nat), r + t ≤ len →
      (2 ≤ n → (n - 2) * TRB_MAX_BUFF_SIZE < len - (r + t)) →
      ∀ (i : Nat) (hi2 : i < (bulkLoop maxp len n a t r).length), i + 1 < n →
        0 < ((bulkLoop maxp len n a t r).get ⟨i, hi2⟩).rem := by
  intro n
  induction n with
  | zero =>
    intro a t r h1 h2 i hi2 hi
    omega
  | succ n ih =>
    intro a t r h1 h2 i hi2 hi
    simp only [bulkLoop] at hi2 ⊢
    cases i with
    | zero =>
      have hlt : r + t < len := by
        have h3 := h2 (by omega)
        have h4 : 0 ≤ (n + 1 - 2) * TRB_MAX_BUFF_SIZE := Nat.zero_le _
        omega
      rw [xhci_td_remainder_eq, if_neg (by omega)]
      have htd : r / maxp < DIV_ROUND_UP len maxp := by
        have h3 : DIV_ROUND_UP len maxp = (len - 1) / maxp + 1 := by
          unfold DIV_ROUND_UP
          rw [show len + maxp - 1 = (len - 1) + maxp by omega]
          rw [Nat.add_div_right _ hm]
        have h4 : r / maxp ≤ (len - 1) / maxp := Nat.div_le_div_right (by omega)
        omega
      have hpos : 0 < min 31 (DIV_ROUND_UP len maxp - r / maxp) := by omega
      rw [Nat.shiftLeft_eq]
      exact Nat.mul_pos hpos (Nat.pos_pow_of_pos 17 (by omega))
    | succ j =>
      have hn2 : 2 ≤ n + 1 := by omega
      have h3 := h2 hn2
      have hgt : TRB_MAX_BUFF_SIZE < len - (r + t) := by
        simp only [trb_max_eq] at *
        omega
      have h1b : (r + t) + min (len - (r + t)) TRB_MAX_BUFF_SIZE ≤ len := by
        omega
      have h2b : 2 ≤ n →
          (n - 2) * TRB_MAX_BUFF_SIZE <
            len - ((r + t) + min (len - (r + t)) TRB_MAX_BUFF_SIZE) := by
        intro hn
        simp only [trb_max_eq] at *
        omega
      simp only [List.get_cons_succ]
      exact ih (a + t) (min (len - (r + t)) TRB_MAX_BUFF_SIZE) (r + t) h1b h2b j
        (by simpa using hi2) (by omega)

lemma bulkCountWhileF_upper (len : Nat) :
    ∀ (fuel rt : Nat), 1 ≤ bulkCountWhileF fuel rt len →
      (bulkCountWhileF fuel rt len - 1) * TRB_MAX_BUFF_SIZE < len - rt := by
  intro fuel
  induction fuel with
  | zero =>
    intro rt h
    simp [bulkCountWhileF] at h
  | succ f ih =>
    intro rt h
    by_cases hlt : rt < len
    · rw [bulkCountWhileF, if_pos hlt] at h ⊢
      by_cases hc1 : 1 ≤ bulkCountWhileF f (rt + TRB_MAX_BUFF_SIZE) len
      · have h2 := ih (rt + TRB_MAX_BUFF_SIZE) hc1
        simp only [trb_max_eq] at *
        omega
      · have hc0 : bulkCountWhileF f (rt + TRB_MAX_BUFF_SIZE) len = 0 := by omega
        simp only [hc0, trb_max_eq] at *
        omega
    · rw [bulkCountWhileF, if_neg hlt] at h
      omega

lemma bulkCountWhileF_zero {len rt : Nat} (fuel : Nat) (h : ¬rt < len) :
    bulkCountWhileF fuel rt len = 0 := by
  cases fuel with
  | zero => rfl
  | succ f => rw [bulkCountWhileF, if_neg h]

lemma bulk_trbs_rem_val (dma len maxp : Nat) (zlp : Bool) (i : Nat)
    (hi : i < (xhci_queue_bulk_tx_trbs dma len maxp zlp).length) :
    ((xhci_queue_bulk_tx_trbs dma len maxp zlp).get ⟨i, hi⟩).rem =
      xhci_td_remainder len
        (((xhci_queue_bulk_tx_trbs dma len maxp zlp).take i).map BulkTrb.len).sum
        maxp ((xhci_queue_bulk_tx_trbs dma len maxp zlp).get ⟨i, hi⟩).len := by
  have hv := bulkLoop_rem_val maxp len (bulk_num_trbs dma len maxp zlp) dma
    (min (TRB_MAX_BUFF_SIZE - dma % TRB_MAX_BUFF_SIZE) len) 0 i hi
  refine hv.trans ?_
  rw [Nat.zero_add]
  exact rfl

/-- C5 (amended).  For the bulk builder's TD: every TRB's remainder
field equals the saturated packet count `min 31 (total packets − whole
packets completed BEFORE this TRB)` shifted into bits 21:17 — except it
is 0 whenever the bytes up to and including this TRB exhaust the TD —
so in particular the final TRB's remainder is 0; the remainder is
monotonically non-increasing along the TD; and when no zero-length
packet is appended (URB_ZERO_PACKET unset or length not a multiple of
max packet) the remainder is zero exactly on the last TRB. -/
theorem C5_td_remainder_field :
    ∀ (dma len maxp : Nat) (zlp : Bool),
      (∀ (i : Nat) (hi : i < (xhci_queue_bulk_tx_trbs dma len maxp zlp).length),
        ((xhci_queue_bulk_tx_trbs dma len maxp zlp).get ⟨i, hi⟩).rem =
          (if (((xhci_queue_bulk_tx_trbs dma len maxp zlp).take i).map
                BulkTrb.len).sum +
              ((xhci_queue_bulk_tx_trbs dma len maxp zlp).get ⟨i, hi⟩).len = len
           then 0
           else (min 31 (DIV_ROUND_UP len maxp -
              (((xhci_queue_bulk_tx_trbs dma len maxp zlp).take i).map
                BulkTrb.len).sum / maxp)) <<< 17)) ∧
      List.Chain' (fun x y => y.rem ≤ x.rem)
        (xhci_queue_bulk_tx_trbs dma len maxp zlp) ∧
      (∀ (hi : (xhci_queue_bulk_tx_trbs dma len maxp zlp).length - 1 <
          (xhci_queue_bulk_tx_trbs dma len maxp zlp).length),
        ((xhci_queue_bulk_tx_trbs dma len maxp zlp).get
          ⟨(xhci_queue_bulk_tx_trbs dma len maxp zlp).length - 1, hi⟩).rem = 0) ∧
      (0 < maxp → (zlp && len % maxp == 0) = false →
        ∀ (i : Nat) (hi : i < (xhci_queue_bulk_tx_trbs dma len maxp zlp).length),
          i + 1 < (xhci_queue_bulk_tx_trbs dma len maxp zlp).length →
          0 < ((xhci_queue_bulk_tx_trbs dma len maxp zlp).get ⟨i, hi⟩).rem) := by
  intro dma len maxp zlp
  refine ⟨?_, ?_, ?_, ?_⟩
  · intro i hi
    rw [bulk_trbs_rem_val dma len maxp zlp i hi, xhci_td_remainder_eq]
  · exact bulkLoop_rem_chain maxp len _ _ _ _
  · intro hi
    have hlen : 0 < (xhci_queue_bulk_tx_trbs dma len maxp zlp).length := by
      rw [bulk_trbs_length]
      exact bulk_num_trbs_pos dma len maxp zlp
    have hsplit := map_sum_split_last BulkTrb.len
      (xhci_queue_bulk_tx_trbs dma len maxp zlp)
      ((xhci_queue_bulk_tx_trbs dma len maxp zlp).length - 1)
      (by omega) hi
    rw [bulk_trbs_rem_val dma len maxp zlp _ hi, xhci_td_remainder_eq]
    rw [if_pos (hsplit.trans (bulk_trbs_sum dma len maxp zlp))]
  · intro hm hz i hi hi2
    refine bulkLoop_rem_pos maxp len hm (bulk_num_trbs dma len maxp zlp) dma
      (min (TRB_MAX_BUFF_SIZE - dma % TRB_MAX_BUFF_SIZE) len) 0
      (by omega) ?_ i hi ?_
    · intro hn2
      unfold bulk_num_trbs at hn2 ⊢
      set b := TRB_MAX_BUFF_SIZE - dma % TRB_MAX_BUFF_SIZE with hb
      have hb0 : b ≠ 0 := by
        rw [hb, trb_max_eq]
        omega
      dsimp only at hn2 ⊢
      rw [if_pos (Or.inl hb0)] at hn2 ⊢
      rw [hz] at hn2 ⊢
      simp only [Bool.false_eq_true, if_false, Nat.add_zero] at hn2 ⊢
      have hk1 : 1 ≤ bulkCountWhile b len := by omega
      have hblt : b < len := by
        by_contra hc
        rw [bulkCountWhile, bulkCountWhileF_zero len hc] at hk1
        omega
      have hup := bulkCountWhileF_upper len len b hk1
      rw [Nat.min_eq_left (by omega), Nat.zero_add]
      unfold bulkCountWhile at *
      simp only [trb_max_eq] at *
      omega
    · rw [bulk_trbs_length] at hi2
      exact hi2

/-- C5, counterexample to the claim as stated: for a two-TRB TD of
65636 bytes (max packet 512), the first (non-final) TRB's remainder
field is the saturated 31, although only 0 whole max-packets (1 when
rounded up) remain AFTER that TRB — the field counts the packets not
yet completed BEFORE the TRB; and with URB_ZERO_PACKET on a 512-byte
TD the remainder is 0 on both TRBs, so it is not zero exactly on the
last TRB. -/
theorem C5_counterexample :
    xhci_td_remainder 65636 0 512 65536 = 31 <<< 17 ∧
    (65636 - (0 + 65536)) / 512 = 0 ∧
    DIV_ROUND_UP (65636 - (0 + 65536)) 512 = 1 ∧
    (31 : Nat) <<< 17 ≠ 0 <<< 17 ∧
    (31 : Nat) <<< 17 ≠ 1 <<< 17 ∧
    (xhci_queue_bulk_tx_trbs 0 512 512 true).map BulkTrb.rem = [0, 0] ∧
    (xhci_queue_bulk_tx_trbs 0 512 512 true).length = 2 := by
  decide

/-- C5 witness: the 70000-byte bulk TD (max packet 512, no zero-length
packet): the final TRB's remainder is 0 and the non-final TRB's is
positive. -/
theorem C5_witness :
    ((xhci_queue_bulk_tx_trbs 4096 70000 512 false).get ⟨1, by decide⟩).rem = 0 ∧
    0 < ((xhci_queue_bulk_tx_trbs 4096 70000 512 false).get ⟨0, by decide⟩).rem := by
  constructor
  · exact (C5_td_remainder_field 4096 70000 512 false).2.2.1 (by decide)
  · exact (C5_td_remainder_field 4096 70000 512 false).2.2.2 (by decide)
      (by decide) 0 (by decide) (by decide)


/-- C6 (amended).  `xhci_queue_ctrl_tx` emits: one Setup TRB at index 0
(immediate data: the request packed into two words, transfer-type bits
TRT from the setup direction and data length), Data TRBs in the middle
positions — one when the transfer length is positive, plus an extra
zero-length Data TRB when URB_ZERO_PACKET is set and the length is a
multiple of the (unmasked) wMaxPacketSize — and one Status TRB at the
last position, whose direction is IN unless the data stage was IN and
non-empty.  With URB_ZERO_PACKET clear, a 0-byte data stage gives
exactly 2 TRBs (Setup, Status) and no Data TRB. -/
theorem C6_ctrl_trb_sequence :
    ∀ (setup : CtrlRequest) (len maxp dma : Nat) (zlp : Bool) (cycle : Nat),
      cycle = 0 ∨ cycle = 1 →
      ((xhci_queue_ctrl_tx_trbs setup len maxp dma zlp cycle).length =
        2 + (if 0 < len then 1 else 0) +
          (if zlp && len % maxp == 0 then 1 else 0)) ∧
      (∀ t : Trb,
        (xhci_queue_ctrl_tx_trbs setup len maxp dma zlp cycle)[0]? = some t →
        t.f0 = (setup.bRequestType ||| setup.bRequest <<< 8 |||
          setup.wValue <<< 16) ∧
        t.f1 = (setup.wIndex ||| setup.wLength <<< 16) ∧
        (t.control >>> 16) &&& 3 =
          (if 0 < len then
            (if setup.bRequestType &&& USB_DIR_IN ≠ 0 then TRT_IN_DATA
             else TRT_OUT_DATA)
           else TRT_NO_DATA)) ∧
      (∀ t : Trb,
        (xhci_queue_ctrl_tx_trbs setup len maxp dma zlp
            cycle)[(xhci_queue_ctrl_tx_trbs setup len maxp dma zlp
              cycle).length - 1]? = some t →
        (t.control &&& TRB_DIR_IN ≠ 0 ↔
          ¬(0 < len ∧ setup.bRequestType &&& USB_DIR_IN ≠ 0))) ∧
      (∀ (i : Nat) (t : Trb),
        i < (xhci_queue_ctrl_tx_trbs setup len maxp dma zlp cycle).length →
        (xhci_queue_ctrl_tx_trbs setup len maxp dma zlp cycle)[i]? = some t →
        trbTypeOf t.control =
          (if i = 0 then TRB_SETUP
           else if i =
              (xhci_queue_ctrl_tx_trbs setup len maxp dma zlp cycle).length - 1
            then TRB_STATUS else TRB_DATA)) ∧
      ((zlp && len % maxp == 0) = false → len = 0 →
        (xhci_queue_ctrl_tx_trbs setup len maxp dma zlp cycle).length = 2) := by
  intro setup len maxp dma zlp cycle hcy
  refine ⟨?_, ?_, ?_, ?_, ?_⟩
  · by_cases hlen : 0 < len
    all_goals by_cases hzl : (zlp && len % maxp == 0) = true
    all_goals
      simp only [xhci_queue_ctrl_tx_trbs, gt_iff_lt, hlen, hzl, if_true,
        if_false, ite_true, ite_false, Bool.false_eq_true, List.cons_append,
        List.nil_append, List.append_nil, List.length_cons, List.length_nil,
        List.singleton_append]
  · intro t ht
    rcases hcy with hcy | hcy
    all_goals subst hcy
    all_goals by_cases hlen : 0 < len
    all_goals by_cases hin : setup.bRequestType &&& USB_DIR_IN = 0
    all_goals
      simp only [xhci_queue_ctrl_tx_trbs, gt_iff_lt, hlen, hin, ne_eq,
        not_true, not_false_iff, false_and, true_and, if_true, if_false,
        ite_true, ite_false, Bool.false_eq_true, List.cons_append,
        List.nil_append, List.append_nil, List.singleton_append,
        List.getElem?_cons_zero, Option.some.injEq] at ht ⊢
    all_goals subst ht
    all_goals exact ⟨rfl, rfl, by dsimp only; decide⟩
  · intro t ht
    rcases hcy with hcy | hcy
    all_goals subst hcy
    all_goals by_cases hlen : 0 < len
    all_goals by_cases hzl : (zlp && len % maxp == 0) = true
    all_goals by_cases hin : setup.bRequestType &&& USB_DIR_IN = 0
    all_goals
      simp only [xhci_queue_ctrl_tx_trbs, gt_iff_lt, hlen, hzl, hin, ne_eq,
        not_true, not_false_iff, false_and, true_and, if_true, if_false,
        ite_true, ite_false, Bool.false_eq_true, List.cons_append,
        List.nil_append, List.append_nil, List.length_cons, List.length_nil,
        List.singleton_append, Nat.reduceAdd, Nat.reduceSub,
        List.getElem?_cons_zero, List.getElem?_cons_succ,
        Option.some.injEq] at ht ⊢
    all_goals subst ht
    all_goals dsimp only
    all_goals decide
  · intro i t hi ht
    rcases hcy with hcy | hcy
    all_goals subst hcy
    all_goals by_cases hlen : 0 < len
    all_goals by_cases hzl : (zlp && len % maxp == 0) = true
    all_goals by_cases hin : setup.bRequestType &&& USB_DIR_IN = 0
    all_goals
      simp only [xhci_queue_ctrl_tx_trbs, gt_iff_lt, hlen, hzl, hin, ne_eq,
        not_true, not_false_iff, false_and, true_and, if_true, if_false,
        ite_true, ite_false, Bool.false_eq_true, List.cons_append,
        List.nil_append, List.append_nil, List.length_cons, List.length_nil,
        List.singleton_append] at hi ht ⊢
    all_goals
      interval_cases i
    all_goals
      simp only [List.getElem?_cons_zero, List.getElem?_cons_succ,
        Option.some.injEq] at ht
    all_goals subst ht
    all_goals
      simp only [Trb.mk.injEq, ite_true, ite_false, Nat.reduceAdd,
        Nat.reduceSub, Nat.reduceEqDiff, if_true, if_false]
    all_goals decide
  · intro hz hl0
    subst hl0
    simp only [xhci_queue_ctrl_tx_trbs, gt_iff_lt, hz, Nat.lt_irrefl,
      if_false, ite_false, Bool.false_eq_true, List.cons_append,
      List.nil_append, List.append_nil, List.length_cons, List.length_nil,
      List.singleton_append]

/-- A concrete IN setup packet (GET_DESCRIPTOR-like). -/
def ctrlSetupIn : CtrlRequest := ⟨0x80, 6, 0x100, 0, 0⟩

/-- C6, counterexample to the claim as stated: with URB_ZERO_PACKET
set, a control transfer with a 0-byte data stage emits 3 TRBs
including a Data TRB (not exactly 2 and no Data TRB), and a data stage
that is a multiple of wMaxPacketSize emits two Data TRBs (not
zero-or-one). -/
theorem C6_counterexample :
    (xhci_queue_ctrl_tx_trbs ctrlSetupIn 0 64 0 true 1).length = 3 ∧
    trbTypeOf ((xhci_queue_ctrl_tx_trbs ctrlSetupIn 0 64 0 true 1).get
      ⟨1, by decide⟩).control = TRB_DATA ∧
    (xhci_queue_ctrl_tx_trbs ctrlSetupIn 64 64 0 true 1).length = 4 := by
  decide

/-- C6 witness: an 18-byte IN control transfer without URB_ZERO_PACKET
emits 3 TRBs; a 0-byte one emits exactly 2. -/
theorem C6_witness :
    (xhci_queue_ctrl_tx_trbs ctrlSetupIn 18 64 8192 false 1).length = 3 ∧
    (xhci_queue_ctrl_tx_trbs ctrlSetupIn 0 64 8192 false 1).length = 2 := by
  refine ⟨?_, ?_⟩
  · have h := (C6_ctrl_trb_sequence ctrlSetupIn 18 64 8192 false 1
      (Or.inr rfl)).1
    simpa using h
  · exact (C6_ctrl_trb_sequence ctrlSetupIn 0 64 8192 false 1
      (Or.inr rfl)).2.2.2.2 rfl rfl

/-- The command TRB types `handle_cmd_completion` recognises in its
switch. -/
def knownCmdType (ty : Nat) : Prop :=
  ty = TRB_TYPE TRB_CMD_NOOP ∨ ty = TRB_TYPE TRB_ENABLE_SLOT ∨
  ty = TRB_TYPE TRB_DISABLE_SLOT ∨ ty = TRB_TYPE TRB_ADDR_DEV ∨
  ty = TRB_TYPE TRB_CONFIG_EP ∨ ty = TRB_TYPE TRB_RESET_DEV ∨
  ty = TRB_TYPE TRB_STOP_RING ∨ ty = TRB_TYPE TRB_EVAL_CONTEXT ∨
  ty = TRB_TYPE TRB_SET_DEQ ∨ ty = TRB_TYPE TRB_RESET_EP

instance (ty : Nat) : Decidable (knownCmdType ty) := by
  unfold knownCmdType
  infer_instance

/-- Result status recorded per command type (`none` = the global
status is left untouched), as the spec's "result status recorded
per-command-type" table. -/
def expectedCmdResult (ty comp : Nat) : Option CmdStatus :=
  if ty = TRB_TYPE TRB_CMD_NOOP then none
  else if ty = TRB_TYPE TRB_ENABLE_SLOT then
    some (if comp = COMP_SUCCESS then .done else .fail)
  else if ty = TRB_TYPE TRB_DISABLE_SLOT then
    (if comp = COMP_SUCCESS then some .done else none)
  else if ty = TRB_TYPE TRB_ADDR_DEV then
    some (if comp = COMP_SUCCESS ∨ comp = COMP_CMD_ABORT then .done else .fail)
  else if ty = TRB_TYPE TRB_CONFIG_EP ∨ ty = TRB_TYPE TRB_RESET_DEV ∨
      ty = TRB_TYPE TRB_STOP_RING ∨ ty = TRB_TYPE TRB_EVAL_CONTEXT ∨
      ty = TRB_TYPE TRB_SET_DEQ then
    some (if comp = COMP_SUCCESS then .done else .fail)
  else if ty = TRB_TYPE TRB_RESET_EP then some .done
  else some (if comp = COMP_CMD_STOP then .done else .fail)

/-- C7 (amended).  `handle_cmd_completion`: if the dequeue TRB's DMA
address cannot be resolved, or the event's command-TRB address does not
match it exactly, the event is dropped — an error bit is recorded and
the command ring (dequeue cursor included) is untouched.  On a match
the per-command-type result status is recorded and the dequeue cursor
is advanced exactly once, EXCEPT when the dequeue TRB's type is not one
the switch recognises and the completion code is Command-Ring-Stopped:
then the status is recorded as done and the cursor is left unmoved. -/
theorem C7_cmd_completion_dispatch :
    (∀ (st : HcdState) (ev : EventCmd),
      trb_virt_to_dma st.cmdRing st.cmdRing.deq.1 st.cmdRing.deq.2 = 0 →
      handle_cmd_completion st ev =
        { st with error_bitmask := st.error_bitmask ||| (1 <<< 4) }) ∧
    (∀ (st : HcdState) (ev : EventCmd),
      trb_virt_to_dma st.cmdRing st.cmdRing.deq.1 st.cmdRing.deq.2 ≠ 0 →
      ev.cmd_trb ≠ trb_virt_to_dma st.cmdRing st.cmdRing.deq.1 st.cmdRing.deq.2 →
      handle_cmd_completion st ev =
        { st with error_bitmask := st.error_bitmask ||| (1 <<< 5) }) ∧
    (∀ (st : HcdState) (ev : EventCmd),
      trb_virt_to_dma st.cmdRing st.cmdRing.deq.1 st.cmdRing.deq.2 ≠ 0 →
      ev.cmd_trb = trb_virt_to_dma st.cmdRing st.cmdRing.deq.1 st.cmdRing.deq.2 →
      (knownCmdType ((st.cmdRing.trbAt st.cmdRing.deq.1
            st.cmdRing.deq.2).control &&& TRB_TYPE_BITMASK) ∨
        GET_COMP_CODE ev.status ≠ COMP_CMD_STOP) →
      (handle_cmd_completion st ev).cmdRing = inc_deq st.cmdRing false ∧
      (handle_cmd_completion st ev).g_cmd_status =
        (expectedCmdResult ((st.cmdRing.trbAt st.cmdRing.deq.1
            st.cmdRing.deq.2).control &&& TRB_TYPE_BITMASK)
          (GET_COMP_CODE ev.status)).getD st.g_cmd_status) ∧
    (∀ (st : HcdState) (ev : EventCmd),
      trb_virt_to_dma st.cmdRing st.cmdRing.deq.1 st.cmdRing.deq.2 ≠ 0 →
      ev.cmd_trb = trb_virt_to_dma st.cmdRing st.cmdRing.deq.1 st.cmdRing.deq.2 →
      ¬knownCmdType ((st.cmdRing.trbAt st.cmdRing.deq.1
          st.cmdRing.deq.2).control &&& TRB_TYPE_BITMASK) →
      GET_COMP_CODE ev.status = COMP_CMD_STOP →
      (handle_cmd_completion st ev).cmdRing = st.cmdRing ∧
      (handle_cmd_completion st ev).g_cmd_status = CmdStatus.done) := by
  refine ⟨?_, ?_, ?_, ?_⟩
  · intro st ev h0
    unfold handle_cmd_completion
    rw [if_pos h0]
  · intro st ev h0 hne
    unfold handle_cmd_completion
    rw [if_neg h0, if_pos hne]
  · intro st ev h0 heq hk
    unfold handle_cmd_completion
    rw [if_neg h0, if_neg (by simp [heq])]
    by_cases hty : knownCmdType ((st.cmdRing.trbAt st.cmdRing.deq.1
        st.cmdRing.deq.2).control &&& TRB_TYPE_BITMASK)
    · rcases hty with h | h | h | h | h | h | h | h | h | h
      all_goals by_cases hc : GET_COMP_CODE ev.status = COMP_SUCCESS
      all_goals by_cases ha : GET_COMP_CODE ev.status = COMP_CMD_ABORT
      all_goals try exact absurd (hc.symm.trans ha) (by decide)
      all_goals simp only [COMP_SUCCESS] at hc
      all_goals simp only [COMP_CMD_ABORT] at ha
      all_goals
        simp [h, hc, ha, expectedCmdResult, HcdState.clearEpBits, TRB_TYPE,
          TRB_CMD_NOOP, TRB_ENABLE_SLOT, TRB_DISABLE_SLOT, TRB_ADDR_DEV,
          TRB_CONFIG_EP, TRB_RESET_DEV, TRB_STOP_RING, TRB_EVAL_CONTEXT,
          TRB_SET_DEQ, TRB_RESET_EP, COMP_SUCCESS, COMP_CMD_ABORT,
          COMP_CMD_STOP]
    · have hcompne : GET_COMP_CODE ev.status ≠ COMP_CMD_STOP := by
        rcases hk with hkk | hcompne
        · exact absurd hkk hty
        · exact hcompne
      simp only [knownCmdType, not_or] at hty
      obtain ⟨h1, h2, h3, h4, h5, h6, h7, h8, h9, h10⟩ := hty
      simp [expectedCmdResult, h1, h2, h3, h4, h5, h6, h7, h8, h9, h10,
        hcompne]
  · intro st ev h0 heq hk hstop
    unfold handle_cmd_completion
    rw [if_neg h0, if_neg (by simp [heq])]
    simp only [knownCmdType, not_or] at hk
    obtain ⟨h1, h2, h3, h4, h5, h6, h7, h8, h9, h10⟩ := hk
    simp [h1, h2, h3, h4, h5, h6, h7, h8, h9, h10, hstop]


/-- An HCD state whose command ring's dequeue TRB has an unrecognised
type (control word 0). -/
def stUnknownCmd : HcdState where
  cmdRing := sampleRing
  error_bitmask := 0
  g_cmd_status := CmdStatus.pending
  g_slot_id := 0
  epState := fun _ _ => 0

/-- A command-completion event matching `stUnknownCmd`'s dequeue TRB,
with completion code COMP_CMD_STOP. -/
def evCmdStop : EventCmd where
  cmd_trb := 4096
  status := COMP_CMD_STOP <<< 24
  flags := 0

/-- C7 counterexample: a matching command-completion event with an
unrecognised TRB type and completion code Command-Ring-Stopped records
status done yet leaves the dequeue cursor unmoved, although an advance
would have moved it — the event is consumed without the claimed single
`inc_deq`. -/
theorem C7_counterexample :
    (handle_cmd_completion stUnknownCmd evCmdStop).cmdRing.deq =
      stUnknownCmd.cmdRing.deq ∧
    (handle_cmd_completion stUnknownCmd evCmdStop).g_cmd_status =
      CmdStatus.done ∧
    (inc_deq stUnknownCmd.cmdRing false).deq ≠ stUnknownCmd.cmdRing.deq := by
  decide

/-- An HCD state whose command ring's dequeue TRB is an Enable-Slot
command. -/
def stEnableCmd : HcdState where
  cmdRing := { sampleRing with
    trbs := fun g s =>
      if s = 63 then
        sampleTrb (TRB_TYPE TRB_LINK ||| (if g = 1 then LINK_TOGGLE else 0))
      else sampleTrb (TRB_TYPE TRB_ENABLE_SLOT) }
  error_bitmask := 0
  g_cmd_status := CmdStatus.pending
  g_slot_id := 0
  epState := fun _ _ => 0

/-- A successful completion event matching `stEnableCmd`'s dequeue TRB. -/
def evCmdSuccess : EventCmd where
  cmd_trb := 4096
  status := COMP_SUCCESS <<< 24
  flags := 5 <<< 24

theorem C7_witness :
    (handle_cmd_completion stEnableCmd evCmdSuccess).cmdRing =
      inc_deq stEnableCmd.cmdRing false ∧
    (handle_cmd_completion stEnableCmd evCmdSuccess).g_cmd_status =
      (expectedCmdResult
        ((stEnableCmd.cmdRing.trbAt stEnableCmd.cmdRing.deq.1
            stEnableCmd.cmdRing.deq.2).control &&& TRB_TYPE_BITMASK)
        (GET_COMP_CODE evCmdSuccess.status)).getD
        stEnableCmd.g_cmd_status :=
  C7_cmd_completion_dispatch.2.2.1 stEnableCmd evCmdSuccess
    (by decide) (by decide) (by decide)

/-- C8.  `handle_tx_event`: an event whose endpoint ring has an empty
pending-TD list is discarded without error (return 0) and only the
event ring's dequeue cursor advances; an event whose address no pending
TD covers (head TD searched by `trb_in_td` from the endpoint ring's
dequeue position) returns -ESHUTDOWN with every ring untouched — in
particular the endpoint ring's dequeue pointer is unmoved. -/
theorem C8_stray_and_orphaned_events :
    ∀ (processTd : TxState → Int × TxState) (st : TxState) (dma : Nat),
      (st.tdList = [] →
        handle_tx_event_slice processTd st dma =
          (0, { st with eventRing := inc_deq st.eventRing true })) ∧
      (∀ td rest, st.tdList = td :: rest →
        trb_in_td st.epRing st.epRing.deq td.lastTrb dma = none →
        handle_tx_event_slice processTd st dma = (-ESHUTDOWN, st)) := by
  intro processTd st dma
  constructor
  · intro h
    simp only [handle_tx_event_slice, h]
  · intro td rest h hnone
    simp only [handle_tx_event_slice, h, hnone]

/-- A transfer-event state: endpoint ring with one pending TD ending at
slot 5, plus the event ring. -/
def txStatePending : TxState where
  epRing := sampleRing
  tdList := [{ lastTrb := (0, 5) }]
  eventRing := sampleEventRing

/-- The same state with nothing pending. -/
def txStateEmpty : TxState where
  epRing := sampleRing
  tdList := []
  eventRing := sampleEventRing

theorem C8_witness :
    (handle_tx_event_slice (fun s => (0, s)) txStateEmpty 4096 =
      (0, { txStateEmpty with
              eventRing := inc_deq txStateEmpty.eventRing true })) ∧
    (handle_tx_event_slice (fun s => (0, s)) txStatePending 3 =
      (-ESHUTDOWN, txStatePending)) :=
  ⟨(C8_stray_and_orphaned_events (fun s => (0, s)) txStateEmpty 4096).1 rfl,
   (C8_stray_and_orphaned_events (fun s => (0, s)) txStatePending 3).2
     { lastTrb := (0, 5) } [] rfl (by decide)⟩

/-- C9 (amended).  `prepare_ring` fails fast only for DISABLED
(-ENOENT), ERROR (-EINVAL) and unrecognised endpoint states (-EINVAL),
leaving the ring untouched; for a HALTED endpoint it does NOT fail: with
room available it proceeds exactly as for a running endpoint ("URB ...
submitted for disabled ep, queueing URB anyway").  The doorbell is
suppressed whenever any of EP_HALT_PENDING, SET_DEQ_PENDING or
EP_HALTED is set. -/
theorem C9_halted_submission_gate :
    ∀ (r : XhciRing) (n : Nat) (q : Bool),
      (prepare_ring r EP_STATE_DISABLED n q = (-ENOENT, r)) ∧
      (prepare_ring r EP_STATE_ERROR n q = (-EINVAL, r)) ∧
      (∀ s, s ≠ EP_STATE_DISABLED → s ≠ EP_STATE_ERROR →
        s ≠ EP_STATE_HALTED → s ≠ EP_STATE_STOPPED →
        s ≠ EP_STATE_RUNNING → prepare_ring r s n q = (-EINVAL, r)) ∧
      (room_on_ring r n = true → enqueue_is_link_trb r = false →
        prepare_ring r EP_STATE_HALTED n q = (0, r)) ∧
      (∀ s, s &&& EP_HALT_PENDING ≠ 0 ∨ s &&& SET_DEQ_PENDING ≠ 0 ∨
        s &&& EP_HALTED ≠ 0 → ring_ep_doorbell s = false) := by
  intro r n q
  refine ⟨?_, ?_, ?_, ?_, ?_⟩
  · simp [prepare_ring]
  · simp [prepare_ring, EP_STATE_ERROR, EP_STATE_DISABLED]
  · intro s h1 h2 h3 h4 h5
    simp [prepare_ring, h1, h2, h3, h4, h5]
  · intro hroom hlink
    simp [prepare_ring, hroom, hlink, EP_STATE_HALTED, EP_STATE_DISABLED,
      EP_STATE_ERROR, enqueue_is_link_trb] at *
    simp [hroom, hlink]
  · intro s h
    rcases h with h | h | h <;> simp [ring_ep_doorbell, h]

/-- C9 counterexample: submitting against a HALTED endpoint is not
rejected — `prepare_ring` with `ep_state = EP_STATE_HALTED` on a ring
with plenty of room returns 0 (success), so TRBs are silently enqueued
against the halted endpoint instead of failing with an
endpoint-not-running error. -/
theorem C9_counterexample :
    (prepare_ring sampleRing EP_STATE_HALTED 3 false).1 = 0 ∧
    (prepare_ring sampleRing EP_STATE_DISABLED 3 false).1 = -ENOENT := by
  constructor
  · decide
  · decide

theorem C9_witness :
    prepare_ring sampleRing EP_STATE_HALTED 3 false = (0, sampleRing) :=
  ((C9_halted_submission_gate sampleRing 3 false).2.2.2.1
    (by decide) (by decide))

/-- C10.  The giveback length check of `finish_td` (`td_cleanup:`):
whatever `actual_length` was computed, the value given back never
exceeds `transfer_buffer_length`; with `actual_length =
transfer_buffer_length - GET_TRANSFER_LENGTH(transfer_len)` computed in
32-bit unsigned arithmetic, a residue not exceeding the request length
gives back exactly `length - residue` with the status untouched, while
a residue larger than the request length (unsigned underflow makes
`actual_length` huge) is clamped: 0 bytes are reported and the status
becomes - EREMOTEIO when URB_SHORT_NOT_OK was set, 0 (no error)
otherwise. -/
theorem C10_actual_length_clamped :
    ∀ (len eventLen : Nat) (snok : Bool) (status : Int),
      len < 2 ^ 32 →
      (∀ a, (finish_td_length_check a len snok status).1 ≤ len) ∧
      (GET_TRANSFER_LENGTH eventLen ≤ len →
        finish_td_length_check (u32_sub len (GET_TRANSFER_LENGTH eventLen))
            len snok status =
          (len - GET_TRANSFER_LENGTH eventLen, status)) ∧
      (len < GET_TRANSFER_LENGTH eventLen →
        finish_td_length_check (u32_sub len (GET_TRANSFER_LENGTH eventLen))
            len snok status =
          (0, if snok then - EREMOTEIO else 0)) := by
  intro len eventLen snok status hlen
  have hres : GET_TRANSFER_LENGTH eventLen < 2 ^ 32 :=
    lt_of_le_of_lt Nat.and_le_right (by decide)
  refine ⟨?_, ?_, ?_⟩
  · intro a
    simp only [finish_td_length_check]
    split
    · exact Nat.zero_le _
    · simp only [gt_iff_lt, not_lt] at *
      assumption
  · intro hle
    have hval : u32_sub len (GET_TRANSFER_LENGTH eventLen) =
        len - GET_TRANSFER_LENGTH eventLen := by
      simp only [u32_sub]
      omega
    rw [hval]
    simp only [finish_td_length_check]
    rw [if_neg (by omega)]
  · intro hgt
    have hval : u32_sub len (GET_TRANSFER_LENGTH eventLen) =
        len + 2 ^ 32 - GET_TRANSFER_LENGTH eventLen := by
      simp only [u32_sub]
      omega
    rw [hval]
    simp only [finish_td_length_check]
    rw [if_pos (by omega)]

theorem C10_witness :
    (∀ a, (finish_td_length_check a 1000 true 0).1 ≤ 1000) ∧
    (GET_TRANSFER_LENGTH 136 ≤ 1000 →
      finish_td_length_check (u32_sub 1000 (GET_TRANSFER_LENGTH 136))
          1000 true 0 = (1000 - GET_TRANSFER_LENGTH 136, 0)) ∧
    (1000 < GET_TRANSFER_LENGTH 136 →
      finish_td_length_check (u32_sub 1000 (GET_TRANSFER_LENGTH 136))
          1000 true 0 = (0, if true then - EREMOTEIO else 0)) :=
  C10_actual_length_clamped 1000 136 true 0 (by decide)
